import Mathlib

/-!
Verification of `scripts/clangd_lint.py`: a driver that talks to a clangd
subprocess over the LSP length-framed JSON-RPC channel, collects published
diagnostics for one file within a 5 second budget, and a batch driver that
prints qualifying diagnostics and computes an exit status.

The embedding models JSON values as an inductive type, the per-file session
loop (`lint_file`) as a fuel-indexed state machine over a script of inbound
messages with time counted in 0.1 s poll slices, and the batch driver
(`main`) as a pure function from per-file session outcomes to printed lines
and exit code.
-/

namespace ClangdLint

/-- JSON values as handled by Python's `json` module on this channel.
Numbers are integers: every numeric field of this protocol (ids, lines,
columns, severities, versions, process ids) is an integer. -/
inductive Json where
  | null : Json
  | bool (b : Bool) : Json
  | num (n : Int) : Json
  | str (s : String) : Json
  | arr (elems : List Json) : Json
  | obj (fields : List (String × Json)) : Json

/-- Python `dict.get(k)` / `d[k]` on a JSON object: the value under key `k`
(objects decoded from the wire have unique keys, so first match suffices). -/
def Json.get? : Json → String → Option Json
  | .obj fields, k => (fields.find? (fun p => p.1 == k)).map (fun p => p.2)
  | _, _ => none

/-- Python `k in d`: key membership. -/
def Json.hasKey (j : Json) (k : String) : Bool :=
  (j.get? k).isSome

/-- Python truthiness of a JSON value (`if resp:`). -/
def Json.truthy : Json → Bool
  | .null => false
  | .bool b => b
  | .num n => n != 0
  | .str s => !s.isEmpty
  | .arr elems => !elems.isEmpty
  | .obj fields => !fields.isEmpty

/-- Python exceptions that the modelled code can raise. -/
inductive PyExc where
  | valueError : PyExc
  | fileNotFoundError : PyExc
deriving DecidableEq

/-- Outbound actions of a session, in program order. -/
inductive Event where
  | send (method : String) : Event
  | terminate : Event
  | wait : Event
deriving DecidableEq

/-- State of one `lint_file` session.  `pending` is the script of messages
the subprocess has emitted and the loop has not yet read; `t` is elapsed
wall-clock time in deciseconds (one 0.1 s poll slice = 1). -/
structure LintState where
  pending : List Json
  t : Nat
  initialized : Bool
  fileOpened : Bool
  diags : List Json
  events : List Event

/-- `while time.time() - start < 5`: the deadline, in 0.1 s slices. -/
def deadlineSlices : Nat := 50

/-- `time.sleep(0.2)` before the settle drain, in 0.1 s slices. -/
def settleSlices : Nat := 2

/-- `read_response(proc, 0.1)` at the session layer: if a message is
pending, `select` returns immediately and the message is decoded; otherwise
the full 0.1 s timeout elapses (one slice) and `None` is returned. -/
def readResp (pending : List Json) (t : Nat) : Option Json × List Json × Nat :=
  match pending with
  | [] => (none, [], t + 1)
  | m :: rest => (some m, rest, t)

/-- `resp.get("method") == "textDocument/publishDiagnostics"` (lines 73, 95). -/
def isPublishDiagnostics (r : Json) : Bool :=
  match r.get? "method" with
  | some (.str s) => s == "textDocument/publishDiagnostics"
  | _ => false

/-- `resp.get("params", \x7b\x7d).get("diagnostics", [])` (lines 74, 96).
A non-list value under "diagnostics" is outside the modelled message space. -/
def publishedDiags (r : Json) : List Json :=
  match ((r.get? "params").getD (Json.obj [])).get? "diagnostics" with
  | some (.arr ds) => ds
  | _ => []

/-- The message handler of the main loop (lines 73-77): a
publishDiagnostics message extends the aggregate; otherwise any message
containing a "result" key, when not yet initialized, marks the session
initialized and sends the "initialized" notification. -/
def handleResp (r : Json) (s : LintState) : LintState :=
  if isPublishDiagnostics r then
    { s with diags := s.diags ++ publishedDiags r }
  else if r.hasKey "result" && !s.initialized then
    { s with initialized := true, events := s.events ++ [Event.send "initialized"] }
  else s

/-- The settle-drain handler (lines 95-96): only publishDiagnostics
messages have an effect. -/
def handleSettle (r : Json) (s : LintState) : LintState :=
  if isPublishDiagnostics r then
    { s with diags := s.diags ++ publishedDiags r }
  else s

/-- `while (resp := read_response(proc, 0.1)):` (lines 94-96): drain
messages while the read yields a truthy value; a falsy or absent response
ends the drain. -/
def settleLoop : Nat → LintState → LintState
  | 0, s => s
  | fuel + 1, s =>
    let (resp, pending, t) := readResp s.pending s.t
    let s1 : LintState := { s with pending := pending, t := t }
    match resp with
    | some r => if r.truthy then settleLoop fuel (handleSettle r s1) else s1
    | none => s1

/-- Inputs of one session: the working directory, the file argument, and
the result of `open(abs_path)` (`none` models the open call raising). -/
structure LintCtx where
  rootDir : String
  filepath : String
  contents : Option String

/-- `os.path.abspath(os.path.join(root_dir, filepath))` for a relative
`filepath` under an absolute `root_dir` (no `..` normalization modelled). -/
def absPath (ctx : LintCtx) : String :=
  ctx.rootDir ++ "/" ++ ctx.filepath

/-- The uri sent in the didOpen notification: `f"file://\x7babs_path\x7d"`. -/
def docUri (ctx : LintCtx) : String :=
  "file://" ++ absPath ctx

/-- Lines 79-90: once initialized and not yet opened, mark the file opened,
read its contents (which can raise), and send the didOpen notification. -/
def openStep (ctx : LintCtx) (s : LintState) : Except (PyExc × LintState) LintState :=
  if s.initialized && !s.fileOpened then
    let s1 : LintState := { s with fileOpened := true }
    match ctx.contents with
    | none => .error (PyExc.fileNotFoundError, s1)
    | some _ => .ok { s1 with events := s1.events ++ [Event.send "textDocument/didOpen"] }
  else .ok s

/-- The main polling loop of `lint_file` (lines 69-97).  Fuel only bounds
the recursion; every iteration either consumes a pending message or
advances `t`, so `deadlineSlices + pending.length + slack` fuel is never
exhausted. -/
def lintLoop (ctx : LintCtx) : Nat → LintState → Except (PyExc × LintState) LintState
  | 0, s => .ok s
  | fuel + 1, s =>
    if s.t < deadlineSlices then
      let (resp, pending, t) := readResp s.pending s.t
      let s1 : LintState := { s with pending := pending, t := t }
      let s2 : LintState :=
        match resp with
        | some r => if r.truthy then handleResp r s1 else s1
        | none => s1
      match openStep ctx s2 with
      | .error e => .error e
      | .ok s3 =>
        if s3.fileOpened && !s3.diags.isEmpty then
          .ok (settleLoop fuel { s3 with t := s3.t + settleSlices })
        else
          lintLoop ctx fuel s3
    else .ok s

/-- The state after the initialize request has been written (lines 59-67). -/
def initState (pending : List Json) : LintState :=
  { pending := pending, t := 0, initialized := false, fileOpened := false,
    diags := [], events := [Event.send "initialize"] }

def lintFuel (pending : List Json) : Nat :=
  deadlineSlices + pending.length + 10

/-- `lint_file` (lines 44-101): run the polling loop, then
`proc.terminate(); proc.wait()` and return the aggregate.  There is no
try/finally in the source: when an exception escapes the loop it
propagates and the terminate/wait calls never execute. -/
def lint_file (ctx : LintCtx) (pending : List Json) :
    Except (PyExc × LintState) (List Json × LintState) :=
  match lintLoop ctx (lintFuel pending) (initState pending) with
  | .ok s => .ok (s.diags, { s with events := s.events ++ [Event.terminate, Event.wait] })
  | .error e => .error e

/-- `d.get("severity", 1)` (line 122). -/
def sevValue (d : Json) : Json :=
  (d.get? "severity").getD (Json.num 1)

/-- `d.get("severity", 1) <= 2` (line 122).  A non-numeric severity value
would raise TypeError in Python and is outside the modelled message space. -/
def qualifies (d : Json) : Bool :=
  match sevValue d with
  | .num n => decide (n ≤ 2)
  | _ => false

/-- `d.get("range", \x7b\x7d).get("start", \x7b\x7d).get(k, 0)`
(lines 123-124), for `k` = "line" or "character".  A non-numeric value is
outside the modelled message space. -/
def rangeStart (d : Json) (k : String) : Int :=
  match (((d.get? "range").getD (Json.obj [])).get? "start").getD (Json.obj []) |>.get? k with
  | some (.num n) => n
  | _ => 0

/-- Python `str()` of the JSON values occurring in message/code positions
of the printed line (containers do not occur there). -/
def pyStr : Json → String
  | .str s => s
  | .num n => toString n
  | .bool true => "True"
  | .bool false => "False"
  | .null => "None"
  | _ => ""

/-- Lines 121-128: the line printed for one diagnostic, or `none` when its
severity does not qualify.  `total_warnings` is incremented exactly when a
line is printed, so the warning count is the number of `some` results. -/
def emitLine (filepath : String) (d : Json) : Option String :=
  if qualifies d then
    some (filepath ++ ":" ++ toString (rangeStart d "line" + 1) ++ ":" ++
      toString (rangeStart d "character" + 1) ++ ": warning: " ++
      pyStr ((d.get? "message").getD (Json.str "")) ++ " [" ++
      pyStr ((d.get? "code").getD (Json.str "")) ++ "]")
  else none

/-- The per-file loop of `main` (lines 119-128), with each file's session
outcome supplied as data.  Returns the printed lines, the warning count,
and the exception that aborted the loop, if any: there is no try/except
around the `lint_file` call, so a session exception stops the iteration. -/
def runFiles : List (String × Except PyExc (List Json)) → List String × Nat × Option PyExc
  | [] => ([], 0, none)
  | (_, .error e) :: _ => ([], 0, some e)
  | (f, .ok ds) :: rest =>
    (ds.filterMap (emitLine f) ++ (runFiles rest).1,
     (ds.filterMap (emitLine f)).length + (runFiles rest).2.1,
     (runFiles rest).2.2)

/-- `'='*40`. -/
def sepLine : String :=
  String.mk (List.replicate 40 '=')

/-- `main()` (lines 103-134) over the per-file session outcomes.  Returns
the stdout lines and either the return value (which `sys.exit` turns into
the process exit status) or the exception that aborted the run. -/
def main (files : List (String × Except PyExc (List Json))) :
    List String × Except PyExc Int :=
  if files.isEmpty then (["No files to check"], .ok 0)
  else
    match (runFiles files).2.2 with
    | some e =>
      (("Checking " ++ toString files.length ++ " file(s) with clangd...") ::
        (runFiles files).1, .error e)
    | none =>
      (("Checking " ++ toString files.length ++ " file(s) with clangd...") ::
        (runFiles files).1 ++
        ["", sepLine, "clangd lint: " ++ toString (runFiles files).2.1 ++ " warning(s)", sepLine],
       .ok (if (runFiles files).2.1 = 0 then 0 else 1))

/-- The diagnostics a run produced (empty when it ended in an exception). -/
def diagsOf : Except (PyExc × LintState) (List Json × LintState) → List Json
  | .ok (d, _) => d
  | .error _ => []

/-- The final session state of a run, for either outcome. -/
def finalStateOf : Except (PyExc × LintState) (List Json × LintState) → LintState
  | .ok (_, s) => s
  | .error (_, s) => s

/-! ### Concrete inputs used by witnesses and counterexamples -/

def ctx0 : LintCtx :=
  { rootDir := "/repo", filepath := "src/a.cpp", contents := some "int x;" }

def ctxNoFile : LintCtx :=
  { rootDir := "/repo", filepath := "missing.cpp", contents := none }

/-- An unsolicited notification: has a method, no id, no result. -/
def logNotif : Json :=
  Json.obj [("jsonrpc", Json.str "2.0"), ("method", Json.str "window/logMessage"),
    ("params", Json.obj [("type", Json.num 3), ("message", Json.str "starting")])]

/-- A response bearing an identifier other than the initialize request's. -/
def strayResp : Json :=
  Json.obj [("jsonrpc", Json.str "2.0"), ("id", Json.num 99),
    ("result", Json.obj [("capabilities", Json.obj [])])]

/-- The genuine initialize response (the request was sent with id 1). -/
def initResp : Json :=
  Json.obj [("jsonrpc", Json.str "2.0"), ("id", Json.num 1),
    ("result", Json.obj [("capabilities", Json.obj [])])]

/-- A Warning diagnostic at zero-based line 4, column 7. -/
def diagW : Json :=
  Json.obj [("range", Json.obj
      [("start", Json.obj [("line", Json.num 4), ("character", Json.num 7)]),
       ("end", Json.obj [("line", Json.num 4), ("character", Json.num 9)])]),
    ("severity", Json.num 2), ("message", Json.str "unused variable"),
    ("code", Json.str "misc-unused")]

/-- A publishDiagnostics notification whose uri is NOT the session's file. -/
def pubOther : Json :=
  Json.obj [("jsonrpc", Json.str "2.0"),
    ("method", Json.str "textDocument/publishDiagnostics"),
    ("params", Json.obj [("uri", Json.str "file:///other/place.cpp"),
      ("diagnostics", Json.arr [diagW])])]

/-! ### The session never initializes without a result-bearing message -/

/-- Invariant of the polling loop while no pending message carries a
"result" key: the session stays uninitialized, the document stays closed,
and no "initialized" notification is sent. -/
def NoResultInv (s : LintState) : Prop :=
  s.initialized = false ∧ s.fileOpened = false ∧
    (∀ m ∈ s.pending, m.hasKey "result" = false) ∧
    Event.send "initialized" ∉ s.events ∧
    Event.send "textDocument/didOpen" ∉ s.events

theorem handleResp_no_result (r : Json) (s : LintState)
    (h : r.hasKey "result" = false) :
    (handleResp r s).initialized = s.initialized ∧
      (handleResp r s).fileOpened = s.fileOpened ∧
      (handleResp r s).pending = s.pending ∧
      (handleResp r s).events = s.events := by
  unfold handleResp
  by_cases hp : isPublishDiagnostics r
  · simp [hp]
  · simp [hp, h]

theorem lintLoop_no_result (ctx : LintCtx) :
    ∀ fuel s, NoResultInv s →
      ∃ s', lintLoop ctx fuel s = Except.ok s' ∧ NoResultInv s' := by
  intro fuel
  induction fuel with
  | zero => exact fun s h => ⟨s, rfl, h⟩
  | succ n ih =>
    rintro ⟨pend, t, ini, fo, dg, ev⟩ ⟨hInit, hOpen, hPend, hEv, hEvO⟩
    simp only at hInit hOpen hPend hEv hEvO
    subst hInit hOpen
    rw [lintLoop]
    by_cases ht : t < deadlineSlices
    · simp only [ht, if_true]
      cases pend with
      | nil =>
        simp only [readResp, openStep, Bool.false_and, Bool.false_eq_true,
          if_false, List.isEmpty_nil]
        exact ih _ ⟨rfl, rfl, by simp, hEv, hEvO⟩
      | cons m rest =>
        simp only [readResp]
        have hm : m.hasKey "result" = false := hPend m (List.mem_cons_self m rest)
        have hRest : ∀ x ∈ rest, x.hasKey "result" = false :=
          fun x hx => hPend x (List.mem_cons_of_mem m hx)
        by_cases htr : m.truthy
        · simp only [htr, if_true]
          set s1 : LintState :=
            { pending := rest, t := t, initialized := false, fileOpened := false,
              diags := dg, events := ev } with hs1
          obtain ⟨e1, e2, e3, e4⟩ := handleResp_no_result m s1 hm
          have hInv2 : NoResultInv (handleResp m s1) := by
            refine ⟨e1, e2, ?_, ?_, ?_⟩
            · rw [e3]; exact hRest
            · rw [e4]; exact hEv
            · rw [e4]; exact hEvO
          simp only [openStep, hInv2.1, Bool.false_and, Bool.false_eq_true, if_false,
            hInv2.2.1]
          exact ih _ hInv2
        · simp only [htr, Bool.false_eq_true, if_false, openStep, Bool.false_and]
          exact ih _ ⟨rfl, rfl, hRest, hEv, hEvO⟩
    · exact ⟨⟨pend, t, false, false, dg, ev⟩, by simp [ht], rfl, rfl, hPend, hEv, hEvO⟩

/-! ### Claim C1 -/

/-- C1 counterexample: in the script [logNotif, strayResp] no message bears
the initialize request's identifier 1 (the notification has no id, the
stray response has id 99), yet the session ends initialized, has sent the
"initialized" notification and has opened the document. -/
theorem init_correlation_cex :
    logNotif.get? "id" = none ∧
    strayResp.get? "id" = some (Json.num 99) ∧
    (finalStateOf (lint_file ctx0 [logNotif, strayResp])).initialized = true ∧
    Event.send "initialized" ∈ (finalStateOf (lint_file ctx0 [logNotif, strayResp])).events ∧
    Event.send "textDocument/didOpen" ∈
      (finalStateOf (lint_file ctx0 [logNotif, strayResp])).events := by
  refine ⟨rfl, rfl, rfl, ?_, ?_⟩ <;> decide

/-- C1 (amended): the transition to Initialized is keyed on the presence
of a "result" field, not on the identifier: any non-publishDiagnostics
message containing a "result" key initializes the session whatever id it
bears, while a message without a "result" key (in particular any
notification) never does — a script free of result-bearing messages leaves
the session uninitialized, with the "initialized" notification unsent and
the document unopened (no didOpen notification is sent). -/
theorem init_keyed_on_result_field :
    (∀ r s, s.initialized = false →
      ((handleResp r s).initialized = true ↔
        isPublishDiagnostics r = false ∧ r.hasKey "result" = true)) ∧
    (∀ ctx pending, (∀ m ∈ pending, m.hasKey "result" = false) →
      ∀ d s, lint_file ctx pending = Except.ok (d, s) →
        s.initialized = false ∧ s.fileOpened = false ∧
          Event.send "initialized" ∉ s.events ∧
          Event.send "textDocument/didOpen" ∉ s.events) := by
  constructor
  · intro r s hs
    unfold handleResp
    by_cases hp : isPublishDiagnostics r
    · simp [hp, hs]
    · by_cases hr : r.hasKey "result"
      · simp [hp, hr, hs]
      · simp [hp, hr, hs]
  · intro ctx pending hPend d s h
    have hInv : NoResultInv (initState pending) := by
      refine ⟨rfl, rfl, hPend, ?_, ?_⟩
      · simp [initState]
      · simp [initState]
    obtain ⟨s', hL, hI, hO, _, hE, hEO⟩ := lintLoop_no_result ctx (lintFuel pending) _ hInv
    unfold lint_file at h
    rw [hL] at h
    injection h with h1
    have hs2 : { s' with events := s'.events ++ [Event.terminate, Event.wait] } = s :=
      congrArg Prod.snd h1
    rw [← hs2]
    refine ⟨hI, hO, ?_, ?_⟩
    · simp only [List.mem_append]
      rintro (hc | hc)
      · exact hE hc
      · exact absurd hc (by decide)
    · simp only [List.mem_append]
      rintro (hc | hc)
      · exact hEO hc
      · exact absurd hc (by decide)

/-- Witness for C1 (amended): the stray response with id 99 initializes a
fresh session state, and a session fed only the notification ends
uninitialized with the document unopened. -/
theorem init_keyed_on_result_field_witness :
    (handleResp strayResp (initState [])).initialized = true ∧
    (finalStateOf (lint_file ctx0 [logNotif])).initialized = false ∧
    (finalStateOf (lint_file ctx0 [logNotif])).fileOpened = false := by
  have h : lint_file ctx0 [logNotif] =
      Except.ok ([], finalStateOf (lint_file ctx0 [logNotif])) := rfl
  have h2 := init_keyed_on_result_field.2 ctx0 [logNotif]
    (fun m hm => by rw [List.mem_singleton] at hm; subst hm; rfl) [] _ h
  exact ⟨(init_keyed_on_result_field.1 strayResp (initState []) rfl).mpr ⟨rfl, rfl⟩,
    h2.1, h2.2.1⟩

/-! ### Claim C2 -/

/-- C2: a subprocess that never emits any output yields an empty
diagnostics sequence, and the polling loop stops within one poll slice
(0.1 s) of the 5 s deadline. -/
theorem silent_subprocess_empty_within_deadline (ctx : LintCtx) :
    ∃ s, lint_file ctx [] = Except.ok ([], s) ∧ s.t ≤ deadlineSlices + 1 :=
  ⟨_, rfl, by decide⟩

/-! ### Claim C3 -/

/-- The state at which the failed open aborts the ctxNoFile session. -/
def errState : LintState :=
  { pending := [], t := 0, initialized := true, fileOpened := true,
    diags := [], events := [Event.send "initialize", Event.send "initialized"] }

/-- C3 counterexample: when `open(abs_path)` raises, the exception
propagates out of lint_file and the terminate/wait teardown never runs. -/
theorem teardown_missing_on_exception_cex :
    lint_file ctxNoFile [initResp] = Except.error (PyExc.fileNotFoundError, errState) ∧
    Event.terminate ∉ errState.events ∧ Event.wait ∉ errState.events :=
  ⟨rfl, by decide, by decide⟩

/-- C3 (amended): on every non-exceptional exit lint_file terminates and
reaps the subprocess; an exception escaping the polling loop propagates
without the teardown (there is no try/finally in the source). -/
theorem teardown_on_normal_exit (ctx : LintCtx) (pending : List Json)
    (d : List Json) (s : LintState)
    (h : lint_file ctx pending = Except.ok (d, s)) :
    Event.terminate ∈ s.events ∧ Event.wait ∈ s.events := by
  unfold lint_file at h
  cases hL : lintLoop ctx (lintFuel pending) (initState pending) with
  | ok s' =>
    rw [hL] at h
    injection h with h1
    have hs2 : { s' with events := s'.events ++ [Event.terminate, Event.wait] } = s :=
      congrArg Prod.snd h1
    rw [← hs2]
    constructor <;> simp
  | error e =>
    rw [hL] at h
    cases h

/-- Witness for C3 (amended), at the silent-subprocess session. -/
theorem teardown_on_normal_exit_witness :
    Event.terminate ∈ (finalStateOf (lint_file ctx0 [])).events ∧
      Event.wait ∈ (finalStateOf (lint_file ctx0 [])).events := by
  have h : lint_file ctx0 [] = Except.ok ([], finalStateOf (lint_file ctx0 [])) := rfl
  exact teardown_on_normal_exit ctx0 [] [] _ h

/-! ### Claim C5 -/

/-- C5 counterexample: the only publishDiagnostics message of this session
carries a uri different from the session's document, yet its diagnostic is
returned in the aggregate. -/
theorem foreign_uri_diagnostics_counted_cex :
    pubOther.get? "method" = some (Json.str "textDocument/publishDiagnostics") ∧
    ((pubOther.get? "params").getD (Json.obj [])).get? "uri" =
      some (Json.str "file:///other/place.cpp") ∧
    docUri ctx0 = "file:///repo/src/a.cpp" ∧
    "file:///other/place.cpp" ≠ "file:///repo/src/a.cpp" ∧
    diagsOf (lint_file ctx0 [initResp, pubOther]) = [diagW] :=
  ⟨rfl, rfl, rfl, by decide, rfl⟩

/-- C5 (amended): every publishDiagnostics message has its diagnostics
appended to the aggregate, whatever uri its params carry — the handler
never inspects the uri. -/
theorem all_publish_diagnostics_appended (r : Json) (s : LintState)
    (h : isPublishDiagnostics r = true) :
    (handleResp r s).diags = s.diags ++ publishedDiags r := by
  simp [handleResp, h]

/-- Witness for C5 (amended), at the foreign-uri message. -/
theorem all_publish_diagnostics_appended_witness :
    (handleResp pubOther (initState [])).diags = [diagW] := by
  have h := all_publish_diagnostics_appended pubOther (initState []) rfl
  simpa using h

/-! ### Batch-driver helpers -/

/-- A batch in which every listed file's session succeeded with the given
diagnostics. -/
def okFiles (files : List (String × List Json)) : List (String × Except PyExc (List Json)) :=
  files.map (fun p => (p.1, Except.ok p.2))

/-- The diagnostic lines the loop prints for the given per-file results. -/
def linesFor (files : List (String × List Json)) : List String :=
  (files.map (fun p => p.2.filterMap (emitLine p.1))).flatten

theorem linesFor_cons (p : String × List Json) (rest : List (String × List Json)) :
    linesFor (p :: rest) = p.2.filterMap (emitLine p.1) ++ linesFor rest := by
  simp [linesFor]

theorem runFiles_okFiles (files : List (String × List Json)) :
    runFiles (okFiles files) = (linesFor files, (linesFor files).length, none) := by
  induction files with
  | nil => rfl
  | cons p rest ih =>
    show runFiles ((p.1, Except.ok p.2) :: okFiles rest) = _
    rw [runFiles, ih, linesFor_cons]
    simp [List.length_append]

theorem runFiles_okFiles_append_error (pre : List (String × List Json)) (f : String)
    (e : PyExc) (post : List (String × Except PyExc (List Json))) :
    runFiles (okFiles pre ++ (f, Except.error e) :: post) =
      (linesFor pre, (linesFor pre).length, some e) := by
  induction pre with
  | nil => rfl
  | cons p rest ih =>
    show runFiles ((p.1, Except.ok p.2) :: (okFiles rest ++ (f, Except.error e) :: post)) = _
    rw [runFiles, ih, linesFor_cons]
    simp [List.length_append]

/-! ### Claim C4 -/

/-- C4 counterexample: the first file's session raised, so the batch aborts
with that exception — although the second file's session would have printed
a warning line, it is never reached. -/
theorem batch_abort_cex :
    main [("bad.cpp", Except.error PyExc.fileNotFoundError), ("good.cpp", Except.ok [diagW])] =
      (["Checking 2 file(s) with clangd..."], Except.error PyExc.fileNotFoundError) ∧
    (emitLine "good.cpp" diagW).isSome = true :=
  ⟨rfl, rfl⟩

/-- C4 (amended): an exception from one file's session propagates out of
the batch driver (there is no try/except around the lint_file call): the
run aborts with that exception, only the diagnostics of files before the
failing one are printed, and the files after it are never processed. -/
theorem session_exception_aborts_batch (pre : List (String × List Json)) (f : String)
    (e : PyExc) (post : List (String × Except PyExc (List Json))) :
    main (okFiles pre ++ (f, Except.error e) :: post) =
      (("Checking " ++ toString (okFiles pre ++ (f, Except.error e) :: post).length ++
          " file(s) with clangd...") :: linesFor pre,
       Except.error e) := by
  have hne : (okFiles pre ++ (f, Except.error e) :: post).isEmpty = false := by
    cases hp : okFiles pre <;> simp [hp]
  rw [main, hne]
  simp [runFiles_okFiles_append_error]

/-! ### Claims C7, C9, C10 -/

/-- Spec-side predicate (what §6 calls "severity Error or Warning"):
Error is severity 1 and Warning is severity 2. -/
def isErrorOrWarning (d : Json) : Bool :=
  match d.get? "severity" with
  | some (.num n) => n == 1 || n == 2
  | _ => false

theorem emitLine_eq_none (f : String) (d : Json) :
    emitLine f d = none ↔ qualifies d = false := by
  unfold emitLine
  by_cases h : qualifies d <;> simp [h]

theorem qualifies_eq_err_or_warn (d : Json) (n : Int)
    (hn : d.get? "severity" = some (Json.num n)) (h1 : 1 ≤ n) :
    qualifies d = isErrorOrWarning d := by
  simp only [qualifies, sevValue, isErrorOrWarning, hn, Option.getD_some]
  by_cases h2 : n ≤ 2
  · have : n = 1 ∨ n = 2 := by omega
    rcases this with rfl | rfl <;> simp
  · have e1 : ¬ n = 1 := by omega
    have e2 : ¬ n = 2 := by omega
    simp [h2, e1, e2]

theorem linesFor_eq_nil_iff (files : List (String × List Json))
    (hsev : ∀ p ∈ files, ∀ d ∈ p.2, ∃ n : Int,
      d.get? "severity" = some (Json.num n) ∧ 1 ≤ n) :
    (linesFor files = []) ↔
      files.all (fun p => p.2.all (fun d => !isErrorOrWarning d)) = true := by
  induction files with
  | nil => simp [linesFor]
  | cons p rest ih =>
    have hp : ∀ d ∈ p.2, ∃ n : Int, d.get? "severity" = some (Json.num n) ∧ 1 ≤ n :=
      fun d hd => hsev p (List.mem_cons_self p rest) d hd
    have hrest := fun q hq d hd => hsev q (List.mem_cons_of_mem p hq) d hd
    rw [linesFor_cons, List.append_eq_nil, ih hrest, List.all_cons, Bool.and_eq_true]
    constructor
    · rintro ⟨hfm, hall⟩
      refine ⟨?_, hall⟩
      rw [List.filterMap_eq_nil_iff] at hfm
      rw [List.all_eq_true]
      intro d hd
      obtain ⟨n, hn, h1⟩ := hp d hd
      have := (emitLine_eq_none p.1 d).mp (hfm d hd)
      rw [qualifies_eq_err_or_warn d n hn h1] at this
      simp [this]
    · rintro ⟨hfm, hall⟩
      refine ⟨?_, hall⟩
      rw [List.filterMap_eq_nil_iff]
      intro d hd
      obtain ⟨n, hn, h1⟩ := hp d hd
      rw [emitLine_eq_none, qualifies_eq_err_or_warn d n hn h1]
      rw [List.all_eq_true] at hfm
      have := hfm d hd
      simpa using this

/-- C7: the exit status over successful sessions is 0 exactly when no
collected diagnostic has severity Error (1) or Warning (2) — in particular
when every file yields only Information/Hint diagnostics — and it is 0 for
an empty file list; otherwise it is 1.  (The hypothesis restricts to
diagnostics carrying an explicit numeric severity in the LSP range.) -/
theorem exit_status_severity_filter (files : List (String × List Json))
    (hsev : ∀ p ∈ files, ∀ d ∈ p.2, ∃ n : Int,
      d.get? "severity" = some (Json.num n) ∧ 1 ≤ n) :
    (main (okFiles files)).2 =
      Except.ok (if files.all (fun p => p.2.all (fun d => !isErrorOrWarning d)) then 0 else 1) := by
  cases files with
  | nil => rfl
  | cons p rest =>
    have hne : (okFiles (p :: rest)).isEmpty = false := rfl
    rw [main, hne]
    simp only [Bool.false_eq_true, if_false, runFiles_okFiles]
    by_cases hall : ((p :: rest).all fun q => q.2.all (fun d => !isErrorOrWarning d)) = true
    · have h0 : linesFor (p :: rest) = [] := (linesFor_eq_nil_iff _ hsev).mpr hall
      simp [h0, hall]
    · have h0 : ¬ linesFor (p :: rest) = [] := fun hc =>
        hall ((linesFor_eq_nil_iff _ hsev).mp hc)
      have hlen : ¬ (linesFor (p :: rest)).length = 0 := by
        simpa [List.length_eq_zero] using h0
      simp only [hlen, if_false, eq_self_iff_true]
      simp [hall]

/-- Witness for C7: two files whose only diagnostics are Information (3)
and Hint (4) give exit status 0. -/
theorem exit_status_severity_filter_witness :
    (main (okFiles [("a.cpp", [Json.obj [("severity", Json.num 3),
        ("message", Json.str "note")]]),
      ("b.cpp", [Json.obj [("severity", Json.num 4),
        ("message", Json.str "hint")]])])).2 = Except.ok 0 := by
  have h := exit_status_severity_filter
    [("a.cpp", [Json.obj [("severity", Json.num 3), ("message", Json.str "note")]]),
     ("b.cpp", [Json.obj [("severity", Json.num 4), ("message", Json.str "hint")]])]
    ?_
  · rw [h]; rfl
  · intro p hp d hd
    rcases List.mem_cons.mp hp with rfl | hp2
    · rw [List.mem_singleton.mp hd]
      exact ⟨3, rfl, by decide⟩
    · rcases List.mem_cons.mp hp2 with rfl | hp3
      · rw [List.mem_singleton.mp hd]
        exact ⟨4, rfl, by decide⟩
      · cases hp3

/-- A diagnostic record with the given optional severity, zero-based
start line/column, message and code. -/
def mkDiag (sev : Option Int) (l c : Int) (msg code : String) : Json :=
  Json.obj
    ((match sev with
      | some n => [("severity", Json.num n)]
      | none => ([] : List (String × Json))) ++
     [("range", Json.obj
        [("start", Json.obj [("line", Json.num l), ("character", Json.num c)]),
         ("end", Json.obj [("line", Json.num l), ("character", Json.num (c + 1))])]),
      ("message", Json.str msg),
      ("code", Json.str code)])

/-- C9: every qualifying diagnostic (severity at most Warning) produces
exactly one printed line `path:line:col: warning: message [code]`, whose
line and column are the zero-based received values plus one. -/
theorem diagnostic_line_format_one_based (path msg code : String) (sev l c : Int)
    (hsev : sev ≤ 2) :
    emitLine path (mkDiag (some sev) l c msg code) =
      some (path ++ ":" ++ toString (l + 1) ++ ":" ++ toString (c + 1) ++
        ": warning: " ++ msg ++ " [" ++ code ++ "]") := by
  simp [emitLine, qualifies, sevValue, rangeStart, mkDiag, Json.get?, pyStr, hsev]

/-- Witness for C9: a Warning received at zero-based line 4, column 7 is
printed as line 5, column 8. -/
theorem diagnostic_line_format_one_based_witness :
    emitLine "src/a.cpp" (mkDiag (some 2) 4 7 "unused variable" "misc-unused") =
      some "src/a.cpp:5:8: warning: unused variable [misc-unused]" := by
  rw [diagnostic_line_format_one_based "src/a.cpp" "unused variable" "misc-unused" 2 4 7
    (by decide)]
  rfl

/-- C10: a diagnostic with no severity field is treated exactly like an
explicit severity-1 (Error) one: the printed line is identical, it
qualifies for counting, and a batch containing only that diagnostic exits
with status 1. -/
theorem missing_severity_defaults_to_error (path msg code : String) (l c : Int) :
    emitLine path (mkDiag none l c msg code) =
        emitLine path (mkDiag (some 1) l c msg code) ∧
      qualifies (mkDiag none l c msg code) = true ∧
      (main [(path, Except.ok [mkDiag none l c msg code])]).2 = Except.ok 1 := by
  refine ⟨?_, rfl, ?_⟩
  · simp [emitLine, qualifies, sevValue, rangeStart, mkDiag, Json.get?]
  · rfl

/-! ### Message framing: the serializer (json.dumps, ensure_ascii=True) -/

/-- The number of bytes in the UTF-8 encoding of one character. -/
def utf8Size (c : Char) : Nat :=
  if c.toNat < 0x80 then 1
  else if c.toNat < 0x800 then 2
  else if c.toNat < 0x10000 then 3
  else 4

/-- The byte length of the UTF-8 encoding of a character sequence. -/
def utf8Len (s : List Char) : Nat :=
  (s.map utf8Size).sum

/-- Lowercase hex digit, as Python's %04x formatting produces. -/
def hexDigit (n : Nat) : Char :=
  if n < 10 then Char.ofNat (48 + n) else Char.ofNat (87 + n)

def hex4 (n : Nat) : List Char :=
  [hexDigit (n / 4096 % 16), hexDigit (n / 256 % 16), hexDigit (n / 16 % 16),
   hexDigit (n % 16)]

/-- One character as json.dumps (default ensure_ascii=True) emits it:
printable ASCII other than backslash and quote stays literal, backslash,
quote and the common control characters get short escapes, and everything
else becomes \uXXXX — a surrogate pair for characters beyond 0xFFFF. -/
def escapeChar (c : Char) : List Char :=
  if c = '\\' then ['\\', '\\']
  else if c = '"' then ['\\', '"']
  else if 0x20 ≤ c.toNat ∧ c.toNat ≤ 0x7e then [c]
  else if c = '\x08' then ['\\', 'b']
  else if c = '\t' then ['\\', 't']
  else if c = '\n' then ['\\', 'n']
  else if c = '\x0c' then ['\\', 'f']
  else if c = '\r' then ['\\', 'r']
  else if c.toNat < 0x10000 then '\\' :: 'u' :: hex4 c.toNat
  else '\\' :: 'u' :: hex4 (0xd800 + (c.toNat - 0x10000) / 0x400) ++
    ('\\' :: 'u' :: hex4 (0xdc00 + (c.toNat - 0x10000) % 0x400))

def escapeList : List Char → List Char
  | [] => []
  | c :: cs => escapeChar c ++ escapeList cs

/-- Decimal digits of n, most significant first. -/
def natDigitsRec (n : Nat) (acc : List Char) : List Char :=
  if h : n < 10 then Char.ofNat (48 + n) :: acc
  else natDigitsRec (n / 10) (Char.ofNat (48 + n % 10) :: acc)
termination_by n
decreasing_by exact Nat.div_lt_self (by omega) (by decide)

def natDigits (n : Nat) : List Char :=
  natDigitsRec n []

/-- Python repr of an int (as interpolated into an f-string or dumped). -/
def intDigits (n : Int) : List Char :=
  if n < 0 then '-' :: natDigits n.natAbs else natDigits n.toNat

mutual
/-- json.dumps with its defaults (item separator ", ", key separator ": ",
ensure_ascii=True), producing the characters of the serialized payload. -/
def dumps : Json → List Char
  | .num n => intDigits n
  | .str s => '"' :: (escapeList s.data ++ ['"'])
  | .bool false => ['f', 'a', 'l', 's', 'e']
  | .null => ['n', 'u', 'l', 'l']
  | .bool true => ['t', 'r', 'u', 'e']
  | .obj [] => ['\x7b', '\x7d']
  | .obj (kv :: kvs) => '\x7b' :: (dumpsMember kv ++ dumpsObjTail kvs ++ ['\x7d'])
  | .arr [] => ['[', ']']
  | .arr (x :: xs) => '[' :: (dumps x ++ dumpsArrTail xs ++ [']'])

def dumpsArrTail : List Json → List Char
  | [] => []
  | x :: xs => ',' :: ' ' :: (dumps x ++ dumpsArrTail xs)

def dumpsMember : String × Json → List Char
  | (k, v) => '"' :: (escapeList k.data ++ ('"' :: ':' :: ' ' :: dumps v))

def dumpsObjTail : List (String × Json) → List Char
  | [] => []
  | kv :: kvs => ',' :: ' ' :: (dumpsMember kv ++ dumpsObjTail kvs)
end

/-! ### Message framing: the parser (json.loads on this channel)

The parser models Python's json.loads on the inputs this channel carries:
the canonical output of json.dumps above.  Whitespace variants, floats,
and non-canonical escape spellings accepted by the full Python grammar
never occur on the channel and are outside the model. -/

def isDigitChar (c : Char) : Bool :=
  48 ≤ c.toNat && c.toNat ≤ 57

def hexVal (c : Char) : Option Nat :=
  if 48 ≤ c.toNat ∧ c.toNat ≤ 57 then some (c.toNat - 48)
  else if 97 ≤ c.toNat ∧ c.toNat ≤ 102 then some (c.toNat - 87)
  else if 65 ≤ c.toNat ∧ c.toNat ≤ 70 then some (c.toNat - 55)
  else none

def hex4Val (a b c d : Char) : Option Nat :=
  match hexVal a, hexVal b, hexVal c, hexVal d with
  | some x, some y, some z, some w => some (x * 4096 + y * 256 + z * 16 + w)
  | _, _, _, _ => none

/-- The single-character escapes of the JSON grammar. -/
def escCharVal (e : Char) : Option Char :=
  if e = '"' then some '"'
  else if e = '\\' then some '\\'
  else if e = '/' then some '/'
  else if e = 'b' then some '\x08'
  else if e = 'f' then some '\x0c'
  else if e = 'n' then some '\n'
  else if e = 'r' then some '\r'
  else if e = 't' then some '\t'
  else none

/-- The continuation of a partially consumed string body: how the parser
resumes after one decoded character. -/
abbrev StrK := List Char → Option (List Char × List Char)

/-- The character decoded from a surrogate pair with values v and v2. -/
def surrogateChar (v v2 : Nat) : Char :=
  Char.ofNat (0x10000 + (v - 0xd800) * 0x400 + (v2 - 0xdc00))

/-- Resume after the second \uXXXX of a surrogate pair whose values were
v (high, already range-checked) and v2 (low, checked here). -/
def parseLowVal (recur : StrK) (v v2 : Nat) (rest4 : List Char) :
    Option (List Char × List Char) :=
  if 0xdc00 ≤ v2 ∧ v2 < 0xe000 then
    (recur rest4).map (fun p => (surrogateChar v v2 :: p.1, p.2))
  else none

/-- A low (second) surrogate \uXXXX completing an astral character whose
high-surrogate value v was just read. -/
def parseLowSurrogate (recur : StrK) (v : Nat) : List Char → Option (List Char × List Char)
  | e2 :: u2 :: a2 :: b2 :: c3 :: d2 :: rest4 =>
    if e2 = '\\' ∧ u2 = 'u' then
      match hex4Val a2 b2 c3 d2 with
      | some v2 => parseLowVal recur v v2 rest4
      | none => none
    else none
  | _ => none

/-- Resume after one \uXXXX escape of value v: high surrogates require a
paired low surrogate (a lone surrogate is not a Unicode scalar value). -/
def parseUVal (recur : StrK) (v : Nat) (rest3 : List Char) :
    Option (List Char × List Char) :=
  if 0xd800 ≤ v ∧ v < 0xdc00 then parseLowSurrogate recur v rest3
  else if 0xdc00 ≤ v ∧ v < 0xe000 then none
  else (recur rest3).map (fun p => (Char.ofNat v :: p.1, p.2))

/-- A \uXXXX escape: four hex digits, then dispatch on the value. -/
def parseUEsc (recur : StrK) : List Char → Option (List Char × List Char)
  | a :: b :: c2 :: d :: rest3 =>
    match hex4Val a b c2 d with
    | some v => parseUVal recur v rest3
    | none => none
  | _ => none

/-- What follows a backslash inside a string body. -/
def parseEscape (recur : StrK) : List Char → Option (List Char × List Char)
  | [] => none
  | e :: rest2 =>
    if e = 'u' then parseUEsc recur rest2
    else
      match escCharVal e with
      | some ec => (recur rest2).map (fun p => (ec :: p.1, p.2))
      | none => none

/-- Body of a JSON string after the opening quote, up to and past the
closing quote.  One unit of fuel is spent per decoded character, so fuel
exceeding the input length never runs out. -/
def parseStringBody : Nat → List Char → Option (List Char × List Char)
  | 0, _ => none
  | _ + 1, [] => none
  | f + 1, c :: rest =>
    if c = '"' then some ([], rest)
    else if c = '\\' then parseEscape (parseStringBody f) rest
    else (parseStringBody f rest).map (fun p => (c :: p.1, p.2))

/-- Consume a run of decimal digits, most significant first. -/
def parseDigitsAux (acc : Nat) : List Char → Nat × List Char
  | [] => (acc, [])
  | c :: rest =>
    if isDigitChar c then parseDigitsAux (acc * 10 + (c.toNat - 48)) rest
    else (acc, c :: rest)

def parseNat : List Char → Option (Nat × List Char)
  | [] => none
  | c :: rest =>
    if isDigitChar c then some (parseDigitsAux 0 (c :: rest)) else none

/-- A (canonical) JSON integer: optional minus sign, then digits. -/
def parseNumber : List Char → Option (Int × List Char)
  | [] => none
  | c :: rest =>
    if c = '-' then (parseNat rest).map (fun p => (-(p.1 : Int), p.2))
    else (parseNat (c :: rest)).map (fun p => ((p.1 : Int), p.2))

/-- One step of the value parser, with the lower-fuel parsers supplied as
continuations: dispatch on the first character of a canonical JSON value. -/
def parseValStep (recurJ : List Char → Option (Json × List Char))
    (recurA : List Char → Option (List Json × List Char))
    (recurM : List Char → Option ((String × Json) × List Char))
    (recurO : List Char → Option (List (String × Json) × List Char)) :
    List Char → Option (Json × List Char)
  | [] => none
  | c :: rest =>
    if c = 'n' then
      match rest with
      | 'u' :: 'l' :: 'l' :: r => some (.null, r)
      | _ => none
    else if c = 't' then
      match rest with
      | 'r' :: 'u' :: 'e' :: r => some (.bool true, r)
      | _ => none
    else if c = 'f' then
      match rest with
      | 'a' :: 'l' :: 's' :: 'e' :: r => some (.bool false, r)
      | _ => none
    else if c = '"' then
      (parseStringBody (rest.length + 1) rest).map (fun p => (.str (String.mk p.1), p.2))
    else if c = '[' then
      match rest with
      | [] => none
      | c2 :: rest2 =>
        if c2 = ']' then some (.arr [], rest2)
        else
          match recurJ (c2 :: rest2) with
          | some (x, r1) =>
            match recurA r1 with
            | some (xs, r2) => some (.arr (x :: xs), r2)
            | none => none
          | none => none
    else if c = '\x7b' then
      match rest with
      | [] => none
      | c2 :: rest2 =>
        if c2 = '\x7d' then some (.obj [], rest2)
        else
          match recurM (c2 :: rest2) with
          | some (kv, r1) =>
            match recurO r1 with
            | some (kvs, r2) => some (.obj (kv :: kvs), r2)
            | none => none
          | none => none
    else
      (parseNumber (c :: rest)).map (fun p => (.num p.1, p.2))

/-- One step after an array element: the closing bracket or the canonical
", " separator and further elements. -/
def parseArrTailStep (recurJ : List Char → Option (Json × List Char))
    (recurA : List Char → Option (List Json × List Char)) :
    List Char → Option (List Json × List Char)
  | ']' :: rest => some ([], rest)
  | ',' :: ' ' :: rest =>
    match recurJ rest with
    | some (x, r1) =>
      match recurA r1 with
      | some (xs, r2) => some (x :: xs, r2)
      | none => none
    | none => none
  | _ => none

/-- One "key": value member of an object, canonical key separator ": ". -/
def parseMemberStep (recurJ : List Char → Option (Json × List Char)) :
    List Char → Option ((String × Json) × List Char)
  | '"' :: rest =>
    match parseStringBody (rest.length + 1) rest with
    | some (k, r1) =>
      match r1 with
      | ':' :: ' ' :: r2 =>
        match recurJ r2 with
        | some (v, r3) => some ((String.mk k, v), r3)
        | none => none
      | _ => none
    | none => none
  | _ => none

/-- One step after an object member: the closing brace or ", " and more
members. -/
def parseObjTailStep (recurM : List Char → Option ((String × Json) × List Char))
    (recurO : List Char → Option (List (String × Json) × List Char)) :
    List Char → Option (List (String × Json) × List Char)
  | '\x7d' :: rest => some ([], rest)
  | ',' :: ' ' :: rest =>
    match recurM rest with
    | some (kv, r1) =>
      match recurO r1 with
      | some (kvs, r2) => some (kv :: kvs, r2)
      | none => none
    | none => none
  | _ => none

mutual
/-- One JSON value in canonical form.  The fuel bounds the value-nesting
recursion; one unit is spent per value/member step. -/
def parseJ : Nat → List Char → Option (Json × List Char)
  | 0, _ => none
  | f + 1, s => parseValStep (parseJ f) (parseArrTail f) (parseMember f) (parseObjTail f) s

def parseArrTail : Nat → List Char → Option (List Json × List Char)
  | 0, _ => none
  | f + 1, s => parseArrTailStep (parseJ f) (parseArrTail f) s

def parseMember : Nat → List Char → Option ((String × Json) × List Char)
  | 0, _ => none
  | f + 1, s => parseMemberStep (parseJ f) s

def parseObjTail : Nat → List Char → Option (List (String × Json) × List Char)
  | 0, _ => none
  | f + 1, s => parseObjTailStep (parseMember f) (parseObjTail f) s
end

/-- json.loads: parse the whole body as one JSON value; anything else
raises ValueError (json.JSONDecodeError is a ValueError subclass). -/
def loads (s : List Char) : Except PyExc Json :=
  match parseJ (s.length + 1) s with
  | some (j, []) => .ok j
  | _ => .error PyExc.valueError

/-! ### Framing proofs: characters, hex and escapes -/

theorem toNat_ofNat_valid (m : Nat) (h : Nat.isValidChar m) :
    (Char.ofNat m).toNat = m := by
  simp only [Char.ofNat, dif_pos h]
  simp [Char.ofNatAux, Char.toNat, UInt32.toNat, BitVec.toNat_ofNatLt]

theorem char_valid (c : Char) :
    c.toNat < 0xd800 ∨ (0xdfff < c.toNat ∧ c.toNat < 0x110000) :=
  c.valid

theorem ne_of_toNat_ne {c d : Char} (h : c.toNat ≠ d.toNat) : c ≠ d :=
  fun he => h (congrArg Char.toNat he)

theorem hexVal_hexDigit (m : Nat) (h : m < 16) : hexVal (hexDigit m) = some m := by
  unfold hexDigit hexVal
  by_cases h10 : m < 10
  · simp only [if_pos h10, toNat_ofNat_valid (48 + m) (Or.inl (by omega))]
    rw [if_pos (by omega : 48 ≤ 48 + m ∧ 48 + m ≤ 57)]
    congr 1
    omega
  · simp only [if_neg h10, toNat_ofNat_valid (87 + m) (Or.inl (by omega))]
    rw [if_neg (by omega), if_pos (by omega : 97 ≤ 87 + m ∧ 87 + m ≤ 102)]
    congr 1
    omega

theorem hex4Val_hex4 (v : Nat) (h : v < 65536) :
    hex4Val (hexDigit (v / 4096 % 16)) (hexDigit (v / 256 % 16))
      (hexDigit (v / 16 % 16)) (hexDigit (v % 16)) = some v := by
  unfold hex4Val
  rw [hexVal_hexDigit _ (Nat.mod_lt _ (by decide)),
      hexVal_hexDigit _ (Nat.mod_lt _ (by decide)),
      hexVal_hexDigit _ (Nat.mod_lt _ (by decide)),
      hexVal_hexDigit _ (Nat.mod_lt _ (by decide))]
  show some (v / 4096 % 16 * 4096 + v / 256 % 16 * 256 + v / 16 % 16 * 16 + v % 16) = some v
  exact congrArg some (by omega)

theorem parseUEsc_hex4 (recur : StrK) (v : Nat) (tail : List Char) (hlt : v < 0x10000) :
    parseUEsc recur (hex4 v ++ tail) = parseUVal recur v tail := by
  show parseUEsc recur (hexDigit (v / 4096 % 16) :: hexDigit (v / 256 % 16) ::
    hexDigit (v / 16 % 16) :: hexDigit (v % 16) :: tail) = _
  rw [parseUEsc, hex4Val_hex4 v hlt]

theorem parseLowSurrogate_hex4 (recur : StrK) (v v2 : Nat) (tail : List Char)
    (h2 : v2 < 0x10000) :
    parseLowSurrogate recur v ('\\' :: 'u' :: (hex4 v2 ++ tail)) =
      parseLowVal recur v v2 tail := by
  show parseLowSurrogate recur v ('\\' :: 'u' :: hexDigit (v2 / 4096 % 16) ::
    hexDigit (v2 / 256 % 16) :: hexDigit (v2 / 16 % 16) :: hexDigit (v2 % 16) :: tail) = _
  rw [parseLowSurrogate, if_pos (show ('\\' : Char) = '\\' ∧ ('u' : Char) = 'u' from ⟨rfl, rfl⟩),
    hex4Val_hex4 v2 h2]

theorem parseStringBody_escapeChar (f : Nat) (c : Char) (tail : List Char) :
    parseStringBody (f + 1) (escapeChar c ++ tail) =
      (parseStringBody f tail).map (fun p => (c :: p.1, p.2)) := by
  by_cases hbs : c = '\\'
  · subst hbs
    rfl
  · by_cases hq : c = '"'
    · subst hq
      rfl
    · by_cases hpr : 0x20 ≤ c.toNat ∧ c.toNat ≤ 0x7e
      · have he : escapeChar c = [c] := by
          unfold escapeChar
          rw [if_neg hbs, if_neg hq, if_pos hpr]
        rw [he, List.singleton_append, parseStringBody, if_neg hq, if_neg hbs]
      · by_cases h8 : c = '\x08'
        · subst h8
          rfl
        · by_cases ht : c = '\t'
          · subst ht
            rfl
          · by_cases hn : c = '\n'
            · subst hn
              rfl
            · by_cases hf : c = '\x0c'
              · subst hf
                rfl
              · by_cases hr : c = '\r'
                · subst hr
                  rfl
                · have hv := char_valid c
                  by_cases hlt : c.toNat < 0x10000
                  · have he : escapeChar c = '\\' :: 'u' :: hex4 c.toNat := by
                      unfold escapeChar
                      rw [if_neg hbs, if_neg hq, if_neg hpr, if_neg h8, if_neg ht,
                        if_neg hn, if_neg hf, if_neg hr, if_pos hlt]
                    rw [he]
                    show parseStringBody (f + 1) ('\\' :: ('u' :: (hex4 c.toNat ++ tail))) = _
                    rw [parseStringBody, if_neg (by decide), if_pos rfl, parseEscape,
                      if_pos rfl, parseUEsc_hex4 _ _ _ hlt, parseUVal,
                      if_neg (by omega), if_neg (by omega), Char.ofNat_toNat]
                  · have he : escapeChar c =
                        '\\' :: 'u' :: hex4 (0xd800 + (c.toNat - 0x10000) / 0x400) ++
                          ('\\' :: 'u' :: hex4 (0xdc00 + (c.toNat - 0x10000) % 0x400)) := by
                      unfold escapeChar
                      rw [if_neg hbs, if_neg hq, if_neg hpr, if_neg h8, if_neg ht,
                        if_neg hn, if_neg hf, if_neg hr, if_neg hlt]
                    rw [he]
                    show parseStringBody (f + 1) ('\\' :: ('u' ::
                      (hex4 (0xd800 + (c.toNat - 0x10000) / 0x400) ++
                        ('\\' :: 'u' :: (hex4 (0xdc00 + (c.toNat - 0x10000) % 0x400) ++ tail))))) = _
                    rw [parseStringBody, if_neg (by decide), if_pos rfl, parseEscape,
                      if_pos rfl, parseUEsc_hex4 _ _ _ (by omega), parseUVal,
                      if_pos (by omega), parseLowSurrogate_hex4 _ _ _ _ (by omega),
                      parseLowVal, if_pos (by omega), surrogateChar]
                    have harg : 0x10000 +
                        (0xd800 + (c.toNat - 0x10000) / 0x400 - 0xd800) * 0x400 +
                        (0xdc00 + (c.toNat - 0x10000) % 0x400 - 0xdc00) = c.toNat := by
                      omega
                    rw [harg, Char.ofNat_toNat]


theorem parseStringBody_escape (s : List Char) :
    ∀ (f : Nat) (rest : List Char), s.length < f →
      parseStringBody f (escapeList s ++ '"' :: rest) = some (s, rest) := by
  induction s with
  | nil =>
    intro f rest hf
    obtain ⟨g, rfl⟩ : ∃ g, f = g + 1 := ⟨f - 1, by omega⟩
    rfl
  | cons c cs ih =>
    intro f rest hf
    obtain ⟨g, rfl⟩ : ∃ g, f = g + 1 := ⟨f - 1, by omega⟩
    show parseStringBody (g + 1) ((escapeChar c ++ escapeList cs) ++ '"' :: rest) = _
    rw [List.append_assoc, parseStringBody_escapeChar, ih g rest (by simpa using hf)]
    rfl

/-! ### Framing proofs: decimal digits -/

/-- True when the stream does not continue with a decimal digit, so a
digit run ends exactly here. -/
def noDigitHead : List Char → Bool
  | [] => true
  | c :: _ => !isDigitChar c

/-- The value accumulated when the decimal digits of n are consumed on
top of an earlier accumulator a. -/
def shift10 (a n : Nat) : Nat :=
  if _h : n < 10 then a * 10 + n
  else shift10 a (n / 10) * 10 + n % 10
termination_by n
decreasing_by exact Nat.div_lt_self (by omega) (by decide)

theorem shift10_lt (a n : Nat) (h : n < 10) : shift10 a n = a * 10 + n := by
  conv_lhs => unfold shift10
  rw [dif_pos h]

theorem shift10_ge (a n : Nat) (h : ¬ n < 10) :
    shift10 a n = shift10 a (n / 10) * 10 + n % 10 := by
  conv_lhs => unfold shift10
  rw [dif_neg h]

theorem isDigitChar_ofNat (k : Nat) (h : k < 10) :
    isDigitChar (Char.ofNat (48 + k)) = true := by
  unfold isDigitChar
  rw [toNat_ofNat_valid _ (Or.inl (by omega))]
  simp only [Bool.and_eq_true, decide_eq_true_eq]
  omega

theorem natDigitsRec_acc (n : Nat) :
    ∀ acc, natDigitsRec n acc = natDigitsRec n [] ++ acc := by
  induction n using Nat.strong_induction_on with
  | _ n ih =>
    intro acc
    by_cases h : n < 10
    · unfold natDigitsRec
      simp only [dif_pos h]
      rfl
    · have hd : n / 10 < n := Nat.div_lt_self (by omega) (by decide)
      unfold natDigitsRec
      simp only [dif_neg h]
      rw [ih (n / 10) hd (Char.ofNat (48 + n % 10) :: acc),
        ih (n / 10) hd [Char.ofNat (48 + n % 10)]]
      simp

theorem natDigitsRec_shape (n : Nat) :
    ∀ acc, ∃ c cs, natDigitsRec n acc = c :: cs ∧ isDigitChar c = true := by
  induction n using Nat.strong_induction_on with
  | _ n ih =>
    intro acc
    by_cases h : n < 10
    · refine ⟨Char.ofNat (48 + n), acc, ?_, isDigitChar_ofNat n h⟩
      unfold natDigitsRec
      rw [dif_pos h]
    · obtain ⟨c, cs, hc, hd⟩ := ih (n / 10) (Nat.div_lt_self (by omega) (by decide))
        (Char.ofNat (48 + n % 10) :: acc)
      refine ⟨c, cs, ?_, hd⟩
      unfold natDigitsRec
      rw [dif_neg h]
      exact hc

theorem parseDigitsAux_natDigits (n : Nat) :
    ∀ (a : Nat) (tail : List Char),
      parseDigitsAux a (natDigitsRec n [] ++ tail) = parseDigitsAux (shift10 a n) tail := by
  induction n using Nat.strong_induction_on with
  | _ n ih =>
    intro a tail
    by_cases h : n < 10
    · unfold natDigitsRec
      rw [dif_pos h]
      show parseDigitsAux a (Char.ofNat (48 + n) :: tail) = _
      rw [parseDigitsAux, if_pos (isDigitChar_ofNat n h),
        toNat_ofNat_valid _ (Or.inl (by omega)), shift10_lt a n h]
      congr 2
      omega
    · have hd : n / 10 < n := Nat.div_lt_self (by omega) (by decide)
      unfold natDigitsRec
      rw [dif_neg h, natDigitsRec_acc (n / 10) [Char.ofNat (48 + n % 10)],
        List.append_assoc, List.singleton_append,
        ih (n / 10) hd a (Char.ofNat (48 + n % 10) :: tail),
        parseDigitsAux, if_pos (isDigitChar_ofNat (n % 10) (by omega)),
        toNat_ofNat_valid _ (Or.inl (by omega)), shift10_ge a n h]
      congr 2
      omega

theorem shift10_zero (n : Nat) : shift10 0 n = n := by
  induction n using Nat.strong_induction_on with
  | _ n ih =>
    by_cases h : n < 10
    · rw [shift10_lt 0 n h]
      omega
    · rw [shift10_ge 0 n h, ih (n / 10) (Nat.div_lt_self (by omega) (by decide))]
      omega

theorem parseDigitsAux_stop (a : Nat) (tail : List Char) (h : noDigitHead tail = true) :
    parseDigitsAux a tail = (a, tail) := by
  cases tail with
  | nil => rfl
  | cons c rest =>
    unfold noDigitHead at h
    rw [parseDigitsAux, if_neg (by simp_all)]

theorem parseNat_natDigits (n : Nat) (tail : List Char) (h : noDigitHead tail = true) :
    parseNat (natDigits n ++ tail) = some (n, tail) := by
  obtain ⟨c, cs, hc, hd⟩ := natDigitsRec_shape n []
  unfold natDigits
  rw [hc, List.cons_append, parseNat, if_pos hd, ← List.cons_append, ← hc,
    parseDigitsAux_natDigits n 0 tail, shift10_zero, parseDigitsAux_stop _ _ h]

theorem parseNumber_intDigits (n : Int) (tail : List Char) (h : noDigitHead tail = true) :
    parseNumber (intDigits n ++ tail) = some (n, tail) := by
  unfold intDigits
  by_cases hn : n < 0
  · rw [if_pos hn]
    show parseNumber ('-' :: (natDigits n.natAbs ++ tail)) = _
    rw [parseNumber, if_pos rfl, parseNat_natDigits _ _ h]
    show some (-(n.natAbs : Int), tail) = _
    have : -(n.natAbs : Int) = n := by omega
    rw [this]
  · rw [if_neg hn]
    obtain ⟨c, cs, hc, hd⟩ := natDigitsRec_shape n.toNat []
    have h48 : 48 ≤ c.toNat ∧ c.toNat ≤ 57 := by
      simpa [isDigitChar, Bool.and_eq_true, decide_eq_true_eq] using hd
    have hcm : c ≠ '-' := ne_of_toNat_ne (show c.toNat ≠ 45 by omega)
    unfold natDigits
    rw [hc, List.cons_append, parseNumber, if_neg hcm, ← List.cons_append, ← hc]
    show (parseNat (natDigits n.toNat ++ tail)).map _ = _
    rw [parseNat_natDigits _ _ h]
    show some ((n.toNat : Int), tail) = _
    have : (n.toNat : Int) = n := by omega
    rw [this]

/-! ### Framing proofs: the serializer/parser round trip -/

/-- Induction over Json values with access to all nested elements. -/
theorem Json.myInd (P : Json → Prop)
    (h0 : P Json.null) (h1 : ∀ b, P (Json.bool b)) (h2 : ∀ n, P (Json.num n))
    (h3 : ∀ s, P (Json.str s))
    (h4 : ∀ xs, (∀ x ∈ xs, P x) → P (Json.arr xs))
    (h5 : ∀ fs, (∀ kv ∈ fs, P kv.2) → P (Json.obj fs)) :
    ∀ j, P j := by
  have H : ∀ (m : Nat) (j : Json), sizeOf j ≤ m → P j := by
    intro m
    induction m with
    | zero =>
      intro j hj
      cases j <;> simp at hj
    | succ m ih =>
      intro j hj
      cases j with
      | null => exact h0
      | bool b => exact h1 b
      | num n => exact h2 n
      | str s => exact h3 s
      | arr xs =>
        refine h4 xs (fun x hx => ih x ?_)
        have hlt := List.sizeOf_lt_of_mem hx
        simp only [Json.arr.sizeOf_spec] at hj
        omega
      | obj fs =>
        refine h5 fs (fun kv hkv => ih kv.2 ?_)
        have hlt := List.sizeOf_lt_of_mem hkv
        have hkv2 : sizeOf kv.2 < sizeOf kv := by
          obtain ⟨k, v⟩ := kv
          simp only [Prod.mk.sizeOf_spec]
          omega
        simp only [Json.obj.sizeOf_spec] at hj
        omega
  exact fun j => H (sizeOf j) j le_rfl

/-- The first character of a serialized value is never a closing
delimiter: it opens a value. -/
theorem dumps_shape (j : Json) :
    ∃ c cs, dumps j = c :: cs ∧ c ≠ ']' ∧ c ≠ '\x7d' := by
  cases j with
  | null => exact ⟨'n', _, rfl, by decide, by decide⟩
  | bool b =>
    cases b
    · exact ⟨'f', _, rfl, by decide, by decide⟩
    · exact ⟨'t', _, rfl, by decide, by decide⟩
  | num n =>
    show ∃ c cs, intDigits n = c :: cs ∧ _
    unfold intDigits
    by_cases hn : n < 0
    · rw [if_pos hn]
      exact ⟨'-', _, rfl, by decide, by decide⟩
    · rw [if_neg hn]
      obtain ⟨c, cs, hc, hd⟩ := natDigitsRec_shape n.toNat []
      have h48 : 48 ≤ c.toNat ∧ c.toNat ≤ 57 := by
        simpa [isDigitChar, Bool.and_eq_true, decide_eq_true_eq] using hd
      exact ⟨c, cs, hc, ne_of_toNat_ne (show c.toNat ≠ 93 from by omega),
        ne_of_toNat_ne (show c.toNat ≠ 125 from by omega)⟩
  | str s => exact ⟨'"', _, rfl, by decide, by decide⟩
  | arr xs =>
    cases xs with
    | nil => exact ⟨'[', _, rfl, by decide, by decide⟩
    | cons x xs => exact ⟨'[', _, rfl, by decide, by decide⟩
  | obj fs =>
    cases fs with
    | nil => exact ⟨'\x7b', _, rfl, by decide, by decide⟩
    | cons kv kvs => exact ⟨'\x7b', _, rfl, by decide, by decide⟩

theorem noDigitHead_arrTail (xs : List Json) (rest : List Char) :
    noDigitHead (dumpsArrTail xs ++ ']' :: rest) = true := by
  cases xs <;> rfl

theorem noDigitHead_objTail (kvs : List (String × Json)) (rest : List Char) :
    noDigitHead (dumpsObjTail kvs ++ '\x7d' :: rest) = true := by
  cases kvs <;> rfl

theorem escapeChar_length_pos (c : Char) : 1 ≤ (escapeChar c).length := by
  unfold escapeChar
  split_ifs <;> simp [hex4]

theorem escapeList_length_ge (s : List Char) : s.length ≤ (escapeList s).length := by
  induction s with
  | nil => simp [escapeList]
  | cons c cs ih =>
    have := escapeChar_length_pos c
    show cs.length + 1 ≤ (escapeChar c ++ escapeList cs).length
    rw [List.length_append]
    omega

theorem string_mk_data (s : String) : String.mk s.data = s := rfl

/-- The inversion statement for one serialized value: any fuel exceeding
its serialized length parses it back exactly, leaving the remainder. -/
def ParsesDump (x : Json) : Prop :=
  ∀ (f : Nat) (rest : List Char), (dumps x).length < f → noDigitHead rest = true →
    parseJ f (dumps x ++ rest) = some (x, rest)

theorem parseArrTail_dumps : ∀ (xs : List Json), (∀ x ∈ xs, ParsesDump x) →
    ∀ (f : Nat) (rest : List Char), (dumpsArrTail xs).length < f → noDigitHead rest = true →
      parseArrTail f (dumpsArrTail xs ++ ']' :: rest) = some (xs, rest) := by
  intro xs
  induction xs with
  | nil =>
    intro _ f rest hf _
    obtain ⟨g, rfl⟩ : ∃ g, f = g + 1 := ⟨f - 1, by omega⟩
    rfl
  | cons x xs ih =>
    intro hxs f rest hf hg
    obtain ⟨g, rfl⟩ : ∃ g, f = g + 1 := ⟨f - 1, by omega⟩
    have hlen : (dumpsArrTail (x :: xs)).length =
        2 + ((dumps x).length + (dumpsArrTail xs).length) := by
      show (',' :: ' ' :: (dumps x ++ dumpsArrTail xs)).length = _
      simp only [List.length_cons, List.length_append]
      omega
    show parseArrTail (g + 1) (',' :: ' ' :: ((dumps x ++ dumpsArrTail xs) ++ ']' :: rest)) = _
    rw [List.append_assoc]
    have step : parseArrTail (g + 1)
        (',' :: ' ' :: (dumps x ++ (dumpsArrTail xs ++ ']' :: rest))) =
        (match parseJ g (dumps x ++ (dumpsArrTail xs ++ ']' :: rest)) with
         | some (x1, r1) =>
           (match parseArrTail g r1 with
            | some (xs1, r2) => some (x1 :: xs1, r2)
            | none => none)
         | none => none) := rfl
    rw [step,
      hxs x (List.mem_cons_self x xs) g (dumpsArrTail xs ++ ']' :: rest)
        (by omega) (noDigitHead_arrTail xs rest)]
    show (match parseArrTail g (dumpsArrTail xs ++ ']' :: rest) with
          | some (xs1, r2) => some (x :: xs1, r2)
          | none => none) = _
    rw [ih (fun y hy => hxs y (List.mem_cons_of_mem x hy)) g rest (by omega) hg]

theorem parseMember_dumps (kv : String × Json) (hv : ParsesDump kv.2) :
    ∀ (f : Nat) (rest : List Char), (dumpsMember kv).length < f → noDigitHead rest = true →
      parseMember f (dumpsMember kv ++ rest) = some (kv, rest) := by
  obtain ⟨k, v⟩ := kv
  have hv2 : ParsesDump v := hv
  intro f rest hf hg
  obtain ⟨g, rfl⟩ : ∃ g, f = g + 1 := ⟨f - 1, by omega⟩
  have hlen : (dumpsMember (k, v)).length =
      4 + ((escapeList k.data).length + (dumps v).length) := by
    show ('"' :: (escapeList k.data ++ ('"' :: ':' :: ' ' :: dumps v))).length = _
    simp only [List.length_cons, List.length_append]
    omega
  show parseMember (g + 1)
    ('"' :: ((escapeList k.data ++ ('"' :: ':' :: ' ' :: dumps v)) ++ rest)) = _
  rw [List.append_assoc]
  rw [show ('"' :: ':' :: ' ' :: dumps v) ++ rest = '"' :: ':' :: ' ' :: (dumps v ++ rest)
    from rfl]
  have step : ∀ R : List Char, parseMember (g + 1) ('"' :: R) =
      (match parseStringBody (R.length + 1) R with
       | some (k1, r1) =>
         (match r1 with
          | ':' :: ' ' :: r2 =>
            (match parseJ g r2 with
             | some (v1, r3) => some ((String.mk k1, v1), r3)
             | none => none)
          | _ => none)
       | none => none) := fun _ => rfl
  rw [step]
  have hlen2 : k.data.length <
      (escapeList k.data ++ '"' :: ':' :: ' ' :: (dumps v ++ rest)).length + 1 := by
    rw [List.length_append]
    have := escapeList_length_ge k.data
    omega
  rw [parseStringBody_escape k.data _ (':' :: ' ' :: (dumps v ++ rest)) hlen2]
  show (match parseJ g (dumps v ++ rest) with
        | some (v1, r3) => some ((String.mk k.data, v1), r3)
        | none => none) = _
  rw [hv2 g rest (by omega) hg]

theorem parseObjTail_dumps : ∀ (kvs : List (String × Json)), (∀ kv ∈ kvs, ParsesDump kv.2) →
    ∀ (f : Nat) (rest : List Char), (dumpsObjTail kvs).length < f → noDigitHead rest = true →
      parseObjTail f (dumpsObjTail kvs ++ '\x7d' :: rest) = some (kvs, rest) := by
  intro kvs
  induction kvs with
  | nil =>
    intro _ f rest hf _
    obtain ⟨g, rfl⟩ : ∃ g, f = g + 1 := ⟨f - 1, by omega⟩
    rfl
  | cons kv kvs ih =>
    intro hkvs f rest hf hg
    obtain ⟨g, rfl⟩ : ∃ g, f = g + 1 := ⟨f - 1, by omega⟩
    have hlen : (dumpsObjTail (kv :: kvs)).length =
        2 + ((dumpsMember kv).length + (dumpsObjTail kvs).length) := by
      show (',' :: ' ' :: (dumpsMember kv ++ dumpsObjTail kvs)).length = _
      simp only [List.length_cons, List.length_append]
      omega
    show parseObjTail (g + 1)
      (',' :: ' ' :: ((dumpsMember kv ++ dumpsObjTail kvs) ++ '\x7d' :: rest)) = _
    rw [List.append_assoc]
    have step : parseObjTail (g + 1)
        (',' :: ' ' :: (dumpsMember kv ++ (dumpsObjTail kvs ++ '\x7d' :: rest))) =
        (match parseMember g (dumpsMember kv ++ (dumpsObjTail kvs ++ '\x7d' :: rest)) with
         | some (kv1, r1) =>
           (match parseObjTail g r1 with
            | some (kvs1, r2) => some (kv1 :: kvs1, r2)
            | none => none)
         | none => none) := rfl
    rw [step,
      parseMember_dumps kv (hkvs kv (List.mem_cons_self kv kvs)) g
        (dumpsObjTail kvs ++ '\x7d' :: rest) (by omega) (noDigitHead_objTail kvs rest)]
    show (match parseObjTail g (dumpsObjTail kvs ++ '\x7d' :: rest) with
          | some (kvs1, r2) => some (kv :: kvs1, r2)
          | none => none) = _
    rw [ih (fun y hy => hkvs y (List.mem_cons_of_mem kv hy)) g rest (by omega) hg]

/-- A value whose first character is none of the keyword/string/array/
object openers parses as a number. -/
theorem parseJ_cons_num (g : Nat) (c : Char) (R : List Char)
    (h1 : ¬ c = 'n') (h2 : ¬ c = 't') (h3 : ¬ c = 'f') (h4 : ¬ c = '"')
    (h5 : ¬ c = '[') (h6 : ¬ c = '\x7b') :
    parseJ (g + 1) (c :: R) = (parseNumber (c :: R)).map (fun p => (Json.num p.1, p.2)) := by
  show parseValStep (parseJ g) (parseArrTail g) (parseMember g) (parseObjTail g) (c :: R) = _
  rw [parseValStep.eq_def]
  simp only [h1, h2, h3, h4, h5, h6, if_false]

/-- Every serialized value parses back to itself (the printer/parser
round trip at the heart of `loads (dumps j) = j`). -/
theorem parseJ_dumps : ∀ j, ParsesDump j := by
  intro j
  induction j using Json.myInd with
  | h0 =>
    intro f rest hf hg
    obtain ⟨g, rfl⟩ : ∃ g, f = g + 1 := ⟨f - 1, by omega⟩
    rfl
  | h1 b =>
    cases b <;>
      (intro f rest hf hg
       obtain ⟨g, rfl⟩ : ∃ g, f = g + 1 := ⟨f - 1, by omega⟩
       rfl)
  | h2 n =>
    intro f rest hf hg
    obtain ⟨g, rfl⟩ : ∃ g, f = g + 1 := ⟨f - 1, by omega⟩
    show parseJ (g + 1) (intDigits n ++ rest) = _
    by_cases hn : n < 0
    · have hd : intDigits n = '-' :: natDigits n.natAbs := by
        unfold intDigits
        rw [if_pos hn]
      rw [hd, List.cons_append]
      have step : ∀ R : List Char, parseJ (g + 1) ('-' :: R) =
          (parseNumber ('-' :: R)).map (fun p => (Json.num p.1, p.2)) := fun _ => rfl
      rw [step, ← List.cons_append, ← hd, parseNumber_intDigits n rest hg]
      rfl
    · obtain ⟨c, cs, hc, hdg⟩ := natDigitsRec_shape n.toNat []
      have hid : intDigits n = c :: cs := by
        unfold intDigits
        rw [if_neg hn]
        exact hc
      have h48 : 48 ≤ c.toNat ∧ c.toNat ≤ 57 := by
        simpa [isDigitChar, Bool.and_eq_true, decide_eq_true_eq] using hdg
      rw [hid, List.cons_append,
        parseJ_cons_num g c (cs ++ rest)
          (ne_of_toNat_ne (show c.toNat ≠ 110 from by omega))
          (ne_of_toNat_ne (show c.toNat ≠ 116 from by omega))
          (ne_of_toNat_ne (show c.toNat ≠ 102 from by omega))
          (ne_of_toNat_ne (show c.toNat ≠ 34 from by omega))
          (ne_of_toNat_ne (show c.toNat ≠ 91 from by omega))
          (ne_of_toNat_ne (show c.toNat ≠ 123 from by omega)),
        ← List.cons_append, ← hid, parseNumber_intDigits n rest hg]
      rfl
  | h3 s =>
    intro f rest hf hg
    obtain ⟨g, rfl⟩ : ∃ g, f = g + 1 := ⟨f - 1, by omega⟩
    show parseJ (g + 1) ('"' :: ((escapeList s.data ++ ['"']) ++ rest)) = _
    have step : ∀ R : List Char, parseJ (g + 1) ('"' :: R) =
        (parseStringBody (R.length + 1) R).map
          (fun p => (Json.str (String.mk p.1), p.2)) := fun _ => rfl
    rw [step, List.append_assoc,
      show (['"'] : List Char) ++ rest = '"' :: rest from rfl]
    have hlen : s.data.length < (escapeList s.data ++ '"' :: rest).length + 1 := by
      rw [List.length_append]
      have := escapeList_length_ge s.data
      omega
    rw [parseStringBody_escape s.data _ rest hlen]
    rfl
  | h4 xs hmem =>
    cases xs with
    | nil =>
      intro f rest hf hg
      obtain ⟨g, rfl⟩ : ∃ g, f = g + 1 := ⟨f - 1, by omega⟩
      rfl
    | cons x xs =>
      intro f rest hf hg
      obtain ⟨g, rfl⟩ : ∃ g, f = g + 1 := ⟨f - 1, by omega⟩
      obtain ⟨c2, cs, hc2, hne, _⟩ := dumps_shape x
      have hlen : (dumps (Json.arr (x :: xs))).length =
          2 + ((dumps x).length + (dumpsArrTail xs).length) := by
        show ('[' :: (dumps x ++ dumpsArrTail xs ++ [']'])).length = _
        simp only [List.length_cons, List.length_append, List.length_nil]
        omega
      show parseJ (g + 1) ('[' :: ((dumps x ++ dumpsArrTail xs ++ [']']) ++ rest)) = _
      rw [List.append_assoc, List.append_assoc,
        show ([']'] : List Char) ++ rest = ']' :: rest from rfl, hc2, List.cons_append]
      have step : ∀ (c0 : Char) (R : List Char), parseJ (g + 1) ('[' :: c0 :: R) =
          (if c0 = ']' then some (Json.arr [], R)
           else
             (match parseJ g (c0 :: R) with
              | some (x1, r1) =>
                (match parseArrTail g r1 with
                 | some (xs1, r2) => some (Json.arr (x1 :: xs1), r2)
                 | none => none)
              | none => none)) := fun _ _ => rfl
      rw [step, if_neg hne, ← List.cons_append, ← hc2,
        hmem x (List.mem_cons_self x xs) g (dumpsArrTail xs ++ ']' :: rest)
          (by omega) (noDigitHead_arrTail xs rest)]
      show (match parseArrTail g (dumpsArrTail xs ++ ']' :: rest) with
            | some (xs1, r2) => some (Json.arr (x :: xs1), r2)
            | none => none) = _
      rw [parseArrTail_dumps xs (fun y hy => hmem y (List.mem_cons_of_mem x hy)) g rest
        (by omega) hg]
  | h5 fs hmem =>
    cases fs with
    | nil =>
      intro f rest hf hg
      obtain ⟨g, rfl⟩ : ∃ g, f = g + 1 := ⟨f - 1, by omega⟩
      rfl
    | cons kv kvs =>
      intro f rest hf hg
      obtain ⟨g, rfl⟩ : ∃ g, f = g + 1 := ⟨f - 1, by omega⟩
      have hdm : dumpsMember kv =
          '"' :: (escapeList kv.1.data ++ ('"' :: ':' :: ' ' :: dumps kv.2)) := by
        obtain ⟨k, v⟩ := kv
        rfl
      have hlen : (dumps (Json.obj (kv :: kvs))).length =
          2 + ((dumpsMember kv).length + (dumpsObjTail kvs).length) := by
        show ('\x7b' :: (dumpsMember kv ++ dumpsObjTail kvs ++ ['\x7d'])).length = _
        simp only [List.length_cons, List.length_append, List.length_nil]
        omega
      show parseJ (g + 1) ('\x7b' :: ((dumpsMember kv ++ dumpsObjTail kvs ++ ['\x7d']) ++ rest)) = _
      rw [List.append_assoc, List.append_assoc,
        show (['\x7d'] : List Char) ++ rest = '\x7d' :: rest from rfl, hdm, List.cons_append]
      have step : ∀ (c0 : Char) (R : List Char), parseJ (g + 1) ('\x7b' :: c0 :: R) =
          (if c0 = '\x7d' then some (Json.obj [], R)
           else
             (match parseMember g (c0 :: R) with
              | some (kv1, r1) =>
                (match parseObjTail g r1 with
                 | some (kvs1, r2) => some (Json.obj (kv1 :: kvs1), r2)
                 | none => none)
              | none => none)) := fun _ _ => rfl
      rw [step, if_neg (by decide), ← List.cons_append, ← hdm,
        parseMember_dumps kv (hmem kv (List.mem_cons_self kv kvs)) g
          (dumpsObjTail kvs ++ '\x7d' :: rest) (by omega) (noDigitHead_objTail kvs rest)]
      show (match parseObjTail g (dumpsObjTail kvs ++ '\x7d' :: rest) with
            | some (kvs1, r2) => some (Json.obj (kv :: kvs1), r2)
            | none => none) = _
      rw [parseObjTail_dumps kvs (fun y hy => hmem y (List.mem_cons_of_mem kv hy)) g rest
        (by omega) hg]

/-- json.loads inverts json.dumps on this channel. -/
theorem loads_dumps (j : Json) : loads (dumps j) = Except.ok j := by
  unfold loads
  have h := parseJ_dumps j ((dumps j).length + 1) [] (by omega) rfl
  rw [List.append_nil] at h
  rw [h]

/-! ### The framed channel: send_request and read_response -/

/-- `f"Content-Length: \x7blen(msg)\x7d\r\n\r\n\x7bmsg\x7d"` (lines 17 and
23): the header states len(msg), Python's character count of the
serialized payload. -/
def frameContent (msg : List Char) : List Char :=
  "Content-Length: ".toList ++ natDigits msg.length ++
    ('\r' :: '\n' :: '\r' :: '\n' :: msg)

/-- send_request (lines 15-19): the bytes written for one request. -/
def send_request (method : String) (params : Json) (msg_id : Int) : List Char :=
  frameContent (dumps (Json.obj [("jsonrpc", Json.str "2.0"), ("id", Json.num msg_id),
    ("method", Json.str method), ("params", params)]))

/-- send_notification (lines 21-25): the bytes written for one
notification (no id field). -/
def send_notification (method : String) (params : Json) : List Char :=
  frameContent (dumps (Json.obj [("jsonrpc", Json.str "2.0"),
    ("method", Json.str method), ("params", params)]))

/-- proc.stdout.readline(): through the first newline, or the whole
remainder at end of stream. -/
def readLine : List Char → List Char × List Char
  | [] => ([], [])
  | c :: rest =>
    if c = '\n' then ([c], rest)
    else (c :: (readLine rest).1, (readLine rest).2)

/-- The whitespace stripped by str.strip(). -/
def isSpaceChar (c : Char) : Bool :=
  c.toNat = 32 || c.toNat = 9 || c.toNat = 10 || c.toNat = 13 ||
    c.toNat = 11 || c.toNat = 12

/-- str.strip(). -/
def pyStrip (s : List Char) : List Char :=
  ((s.dropWhile isSpaceChar).reverse.dropWhile isSpaceChar).reverse

/-- line.split(": ", 1), splitting at the first occurrence; `none` when
the line has no ": " (the `": " in line` test, line 35). -/
def splitColonSpace : List Char → Option (List Char × List Char)
  | [] => none
  | ':' :: ' ' :: rest => some ([], rest)
  | c :: rest => (splitColonSpace rest).map (fun p => (c :: p.1, p.2))

/-- The header-reading loop of read_response (lines 30-37): read lines
until a blank one (or end of stream); each line containing ": " is
recorded.  Fuel exceeding the stream length never runs out, since every
non-final iteration consumes at least one character. -/
def readHeaders : Nat → List Char → List (List Char × List Char) →
    List (List Char × List Char) × List Char
  | 0, s, hs => (hs, s)
  | fuel + 1, s, hs =>
    if (pyStrip (readLine s).1).isEmpty then (hs, (readLine s).2)
    else
      match splitColonSpace (pyStrip (readLine s).1) with
      | some kv => readHeaders fuel (readLine s).2 (hs ++ [kv])
      | none => readHeaders fuel (readLine s).2 hs

/-- headers.get(k): Python dict lookup — the latest assignment wins. -/
def headerGet (hs : List (List Char × List Char)) (k : List Char) : Option (List Char) :=
  (hs.reverse.find? (fun p => p.1 == k)).map (fun p => p.2)

def allDigits : List Char → Bool
  | [] => true
  | c :: rest => isDigitChar c && allDigits rest

/-- The numeric value of an all-digit string. -/
def digitsVal (s : List Char) : Nat :=
  (parseDigitsAux 0 s).1

/-- Python int(str): surrounding whitespace stripped, an optional sign,
then decimal digits; anything else raises ValueError.  (Python's
underscore digit grouping is not modelled.) -/
def pyInt (s : List Char) : Except PyExc Int :=
  match pyStrip s with
  | [] => .error PyExc.valueError
  | c :: rest =>
    if c = '-' then
      if rest ≠ [] ∧ allDigits rest = true then .ok (-(digitsVal rest : Int))
      else .error PyExc.valueError
    else if c = '+' then
      if rest ≠ [] ∧ allDigits rest = true then .ok (digitsVal rest)
      else .error PyExc.valueError
    else if allDigits (c :: rest) = true then .ok (digitsVal (c :: rest))
    else .error PyExc.valueError

/-- read_response (lines 27-42) on an available byte stream (when data is
pending, select reports ready at once; the no-data timeout path is the
session layer's None).  Characters stand for bytes: every payload this
channel carries is ASCII (dumps_ascii below).  Returns the decoded
message — None when the Content-Length header is missing or zero — and
the unread remainder of the stream.  A negative declared length is
outside the modelled channel. -/
def read_response (s : List Char) : Except PyExc (Option Json × List Char) :=
  match headerGet (readHeaders (s.length + 1) s []).1 ("Content-Length".toList) with
  | none => .ok (none, (readHeaders (s.length + 1) s []).2)
  | some v =>
    match pyInt v with
    | .error e => .error e
    | .ok n =>
      if n ≠ 0 then
        match loads (((readHeaders (s.length + 1) s []).2).take n.toNat) with
        | .ok j => .ok (some j, ((readHeaders (s.length + 1) s []).2).drop n.toNat)
        | .error e => .error e
      else .ok (none, (readHeaders (s.length + 1) s []).2)

/-! ### ASCII payloads: character count = UTF-8 byte count -/

theorem hexDigit_ascii (m : Nat) (h : m < 16) : (hexDigit m).toNat < 128 := by
  unfold hexDigit
  by_cases h10 : m < 10
  · rw [if_pos h10, toNat_ofNat_valid _ (Or.inl (by omega))]
    omega
  · rw [if_neg h10, toNat_ofNat_valid _ (Or.inl (by omega))]
    omega

theorem hex4_ascii (v : Nat) : ∀ d ∈ hex4 v, d.toNat < 128 := by
  intro d hd
  unfold hex4 at hd
  simp only [List.mem_cons, List.not_mem_nil, or_false] at hd
  rcases hd with rfl | rfl | rfl | rfl <;>
    exact hexDigit_ascii _ (Nat.mod_lt _ (by decide))

theorem escapeChar_ascii (c : Char) : ∀ d ∈ escapeChar c, d.toNat < 128 := by
  intro d hd
  unfold escapeChar at hd
  split_ifs at hd with hbs hq hpr h8 ht hn hf hr hlt <;>
    simp only [List.mem_cons, List.mem_append, List.mem_singleton,
      List.not_mem_nil, or_false] at hd
  · rcases hd with rfl | rfl <;> decide
  · rcases hd with rfl | rfl <;> decide
  · subst hd
    omega
  · rcases hd with rfl | rfl <;> decide
  · rcases hd with rfl | rfl <;> decide
  · rcases hd with rfl | rfl <;> decide
  · rcases hd with rfl | rfl <;> decide
  · rcases hd with rfl | rfl <;> decide
  · rcases hd with rfl | rfl | hd
    · decide
    · decide
    · exact hex4_ascii _ d hd
  · rcases hd with (rfl | rfl | hd) | (rfl | rfl | hd)
    · decide
    · decide
    · exact hex4_ascii _ d hd
    · decide
    · decide
    · exact hex4_ascii _ d hd

theorem escapeList_ascii (s : List Char) : ∀ d ∈ escapeList s, d.toNat < 128 := by
  induction s with
  | nil => intro d hd; cases hd
  | cons c cs ih =>
    intro d hd
    rcases List.mem_append.mp hd with hd | hd
    · exact escapeChar_ascii c d hd
    · exact ih d hd

theorem natDigitsRec_ascii (n : Nat) :
    ∀ acc, (∀ d ∈ acc, d.toNat < 128) → ∀ d ∈ natDigitsRec n acc, d.toNat < 128 := by
  induction n using Nat.strong_induction_on with
  | _ n ih =>
    intro acc hacc d hd
    by_cases h : n < 10
    · unfold natDigitsRec at hd
      rw [dif_pos h] at hd
      rcases List.mem_cons.mp hd with rfl | hd
      · rw [toNat_ofNat_valid _ (Or.inl (by omega))]
        omega
      · exact hacc d hd
    · unfold natDigitsRec at hd
      rw [dif_neg h] at hd
      refine ih (n / 10) (Nat.div_lt_self (by omega) (by decide)) _ ?_ d hd
      intro e he
      rcases List.mem_cons.mp he with rfl | he
      · rw [toNat_ofNat_valid _ (Or.inl (by omega))]
        omega
      · exact hacc e he

theorem intDigits_ascii (n : Int) : ∀ d ∈ intDigits n, d.toNat < 128 := by
  intro d hd
  unfold intDigits at hd
  by_cases hn : n < 0
  · rw [if_pos hn] at hd
    rcases List.mem_cons.mp hd with rfl | hd
    · decide
    · exact natDigitsRec_ascii n.natAbs [] (by intro e he; cases he) d hd
  · rw [if_neg hn] at hd
    exact natDigitsRec_ascii n.toNat [] (by intro e he; cases he) d hd

theorem dumpsMember_ascii (kv : String × Json)
    (hv : ∀ d ∈ dumps kv.2, d.toNat < 128) :
    ∀ d ∈ dumpsMember kv, d.toNat < 128 := by
  obtain ⟨k, v⟩ := kv
  intro d hd
  replace hd : d ∈ '"' :: (escapeList k.data ++ ('"' :: ':' :: ' ' :: dumps v)) := hd
  rcases List.mem_cons.mp hd with rfl | hd
  · decide
  · rcases List.mem_append.mp hd with hd | hd
    · exact escapeList_ascii k.data d hd
    · rcases List.mem_cons.mp hd with rfl | hd
      · decide
      · rcases List.mem_cons.mp hd with rfl | hd
        · decide
        · rcases List.mem_cons.mp hd with rfl | hd
          · decide
          · exact hv d hd

theorem dumpsArrTail_ascii (xs : List Json)
    (hxs : ∀ x ∈ xs, ∀ d ∈ dumps x, d.toNat < 128) :
    ∀ d ∈ dumpsArrTail xs, d.toNat < 128 := by
  induction xs with
  | nil => intro d hd; cases hd
  | cons x xs ih =>
    intro d hd
    replace hd : d ∈ ',' :: ' ' :: (dumps x ++ dumpsArrTail xs) := hd
    rcases List.mem_cons.mp hd with rfl | hd
    · decide
    · rcases List.mem_cons.mp hd with rfl | hd
      · decide
      · rcases List.mem_append.mp hd with hd | hd
        · exact hxs x (List.mem_cons_self x xs) d hd
        · exact ih (fun y hy => hxs y (List.mem_cons_of_mem x hy)) d hd

theorem dumpsObjTail_ascii (kvs : List (String × Json))
    (hkvs : ∀ kv ∈ kvs, ∀ d ∈ dumps kv.2, d.toNat < 128) :
    ∀ d ∈ dumpsObjTail kvs, d.toNat < 128 := by
  induction kvs with
  | nil => intro d hd; cases hd
  | cons kv kvs ih =>
    intro d hd
    replace hd : d ∈ ',' :: ' ' :: (dumpsMember kv ++ dumpsObjTail kvs) := hd
    rcases List.mem_cons.mp hd with rfl | hd
    · decide
    · rcases List.mem_cons.mp hd with rfl | hd
      · decide
      · rcases List.mem_append.mp hd with hd | hd
        · exact dumpsMember_ascii kv (hkvs kv (List.mem_cons_self kv kvs)) d hd
        · exact ih (fun y hy => hkvs y (List.mem_cons_of_mem kv hy)) d hd

/-- Every serialized payload is pure ASCII (ensure_ascii=True). -/
theorem dumps_ascii : ∀ j, ∀ d ∈ dumps j, d.toNat < 128 := by
  intro j
  induction j using Json.myInd with
  | h0 =>
    intro d hd
    rcases List.mem_cons.mp hd with rfl | hd
    · decide
    · rcases List.mem_cons.mp hd with rfl | hd
      · decide
      · rcases List.mem_cons.mp hd with rfl | hd
        · decide
        · rcases List.mem_cons.mp hd with rfl | hd
          · decide
          · cases hd
  | h1 b =>
    intro d hd
    cases b
    · replace hd : d ∈ ['f', 'a', 'l', 's', 'e'] := hd
      simp only [List.mem_cons, List.not_mem_nil, or_false] at hd
      rcases hd with rfl | rfl | rfl | rfl | rfl <;> decide
    · replace hd : d ∈ ['t', 'r', 'u', 'e'] := hd
      simp only [List.mem_cons, List.not_mem_nil, or_false] at hd
      rcases hd with rfl | rfl | rfl | rfl <;> decide
  | h2 n => exact intDigits_ascii n
  | h3 s =>
    intro d hd
    replace hd : d ∈ '"' :: (escapeList s.data ++ ['"']) := hd
    rcases List.mem_cons.mp hd with rfl | hd
    · decide
    · rcases List.mem_append.mp hd with hd | hd
      · exact escapeList_ascii s.data d hd
      · rcases List.mem_singleton.mp hd with rfl
        decide
  | h4 xs hxs =>
    cases xs with
    | nil =>
      intro d hd
      rcases List.mem_cons.mp hd with rfl | hd
      · decide
      · rcases List.mem_singleton.mp hd with rfl
        decide
    | cons x xs =>
      intro d hd
      replace hd : d ∈ '[' :: (dumps x ++ dumpsArrTail xs ++ [']']) := hd
      rcases List.mem_cons.mp hd with rfl | hd
      · decide
      · rcases List.mem_append.mp hd with hd | hd
        · rcases List.mem_append.mp hd with hd | hd
          · exact hxs x (List.mem_cons_self x xs) d hd
          · exact dumpsArrTail_ascii xs (fun y hy => hxs y (List.mem_cons_of_mem x hy)) d hd
        · rcases List.mem_singleton.mp hd with rfl
          decide
  | h5 fs hfs =>
    cases fs with
    | nil =>
      intro d hd
      rcases List.mem_cons.mp hd with rfl | hd
      · decide
      · rcases List.mem_singleton.mp hd with rfl
        decide
    | cons kv kvs =>
      intro d hd
      replace hd : d ∈ '\x7b' :: (dumpsMember kv ++ dumpsObjTail kvs ++ ['\x7d']) := hd
      rcases List.mem_cons.mp hd with rfl | hd
      · decide
      · rcases List.mem_append.mp hd with hd | hd
        · rcases List.mem_append.mp hd with hd | hd
          · exact dumpsMember_ascii kv (hfs kv (List.mem_cons_self kv kvs)) d hd
          · exact dumpsObjTail_ascii kvs (fun y hy => hfs y (List.mem_cons_of_mem kv hy)) d hd
        · rcases List.mem_singleton.mp hd with rfl
          decide

theorem utf8Len_eq_length (s : List Char) (h : ∀ d ∈ s, d.toNat < 128) :
    utf8Len s = s.length := by
  induction s with
  | nil => rfl
  | cons c cs ih =>
    show utf8Size c + utf8Len cs = cs.length + 1
    rw [ih (fun d hd => h d (List.mem_cons_of_mem c hd))]
    have hc := h c (List.mem_cons_self c cs)
    unfold utf8Size
    rw [if_pos (by omega)]
    omega

/-! ### The wire frame parses back: Content-Length header and body -/

theorem digit_not_space (c : Char) (h : isDigitChar c = true) :
    isSpaceChar c = false := by
  unfold isDigitChar at h
  unfold isSpaceChar
  simp only [Bool.and_eq_true, decide_eq_true_eq] at h
  simp only [Bool.or_eq_false_iff, decide_eq_false_iff_not]
  omega

theorem natDigitsRec_digits (n : Nat) :
    ∀ acc, (∀ c ∈ acc, isDigitChar c = true) →
      ∀ c ∈ natDigitsRec n acc, isDigitChar c = true := by
  induction n using Nat.strong_induction_on with
  | _ n ih =>
    intro acc hacc c hc
    by_cases h : n < 10
    · unfold natDigitsRec at hc
      rw [dif_pos h] at hc
      rcases List.mem_cons.mp hc with rfl | hc
      · exact isDigitChar_ofNat n h
      · exact hacc c hc
    · unfold natDigitsRec at hc
      rw [dif_neg h] at hc
      refine ih (n / 10) (Nat.div_lt_self (by omega) (by decide)) _ ?_ c hc
      intro e he
      rcases List.mem_cons.mp he with rfl | he
      · exact isDigitChar_ofNat (n % 10) (by omega)
      · exact hacc e he

theorem natDigits_digits (n : Nat) : ∀ c ∈ natDigits n, isDigitChar c = true :=
  natDigitsRec_digits n [] (fun c hc => absurd hc (List.not_mem_nil c))

theorem allDigits_of_forall (s : List Char) (h : ∀ c ∈ s, isDigitChar c = true) :
    allDigits s = true := by
  induction s with
  | nil => rfl
  | cons c cs ih =>
    unfold allDigits
    rw [h c (List.mem_cons_self c cs), ih (fun e he => h e (List.mem_cons_of_mem c he))]
    rfl

theorem natDigits_ne_nil (n : Nat) : natDigits n ≠ [] := by
  obtain ⟨c, cs, hc, _⟩ := natDigitsRec_shape n []
  unfold natDigits
  rw [hc]
  exact List.cons_ne_nil c cs

theorem dropWhile_spaces_cons (c : Char) (t : List Char) (hc : isSpaceChar c = false) :
    (c :: t).dropWhile isSpaceChar = c :: t := by
  rw [List.dropWhile_cons, hc]
  simp

theorem pyStrip_of_edges (c : Char) (t u : List Char) (d : Char)
    (hct : c :: t = u ++ [d]) (hc : isSpaceChar c = false) (hd : isSpaceChar d = false) :
    pyStrip (c :: t) = c :: t := by
  unfold pyStrip
  rw [dropWhile_spaces_cons c t hc, hct, List.reverse_append, List.reverse_singleton,
    List.singleton_append, dropWhile_spaces_cons d u.reverse hd]
  rw [show d :: u.reverse = ([d] ++ u.reverse) from rfl, List.reverse_append,
    List.reverse_reverse, List.reverse_singleton]

theorem pyStrip_crlf (c : Char) (t u : List Char) (d : Char)
    (hct : c :: t = u ++ [d]) (hc : isSpaceChar c = false) (hd : isSpaceChar d = false) :
    pyStrip ((c :: t) ++ ['\r', '\n']) = c :: t := by
  unfold pyStrip
  rw [List.cons_append, dropWhile_spaces_cons c (t ++ ['\r', '\n']) hc, ← List.cons_append,
    List.reverse_append, hct, List.reverse_append, List.reverse_singleton]
  show List.reverse (List.dropWhile isSpaceChar ('\n' :: '\r' :: (d :: u.reverse))) = _
  rw [List.dropWhile_cons_of_pos (by decide), List.dropWhile_cons_of_pos (by decide),
    dropWhile_spaces_cons d u.reverse hd]
  rw [show d :: u.reverse = ([d] ++ u.reverse) from rfl, List.reverse_append,
    List.reverse_reverse, List.reverse_singleton, ← hct]

theorem readLine_append (A : List Char) (rest : List Char) (h : '\n' ∉ A) :
    readLine (A ++ '\n' :: rest) = (A ++ ['\n'], rest) := by
  induction A with
  | nil =>
    show readLine ('\n' :: rest) = _
    rw [readLine, if_pos rfl]
    rfl
  | cons c cs ih =>
    have hc : c ≠ '\n' := fun hcn => h (hcn ▸ List.mem_cons_self c cs)
    have hcs : '\n' ∉ cs := fun hmem => h (List.mem_cons_of_mem c hmem)
    show readLine (c :: (cs ++ '\n' :: rest)) = _
    rw [readLine, if_neg hc, ih hcs]
    rfl

theorem splitColonSpace_contentLength (ds : List Char) :
    splitColonSpace ("Content-Length: ".toList ++ ds) =
      some ("Content-Length".toList, ds) := rfl

theorem digitsVal_natDigits (n : Nat) : digitsVal (natDigits n) = n := by
  unfold digitsVal natDigits
  rw [show natDigitsRec n [] = natDigitsRec n [] ++ [] from (List.append_nil _).symm,
    parseDigitsAux_natDigits n 0 [], shift10_zero]
  rfl

theorem pyStrip_natDigits (n : Nat) : pyStrip (natDigits n) = natDigits n := by
  obtain ⟨c, cs, hc, hdig⟩ := natDigitsRec_shape n []
  have hcons : natDigits n = c :: cs := hc
  obtain ⟨u, d, hud⟩ := (List.eq_nil_or_concat (natDigits n)).resolve_left (natDigits_ne_nil n)
  rw [List.concat_eq_append] at hud
  have hdd : isDigitChar d = true := by
    refine natDigits_digits n d ?_
    rw [hud]
    exact List.mem_append.mpr (Or.inr (List.mem_singleton.mpr rfl))
  rw [hcons]
  exact pyStrip_of_edges c cs u d (hcons ▸ hud)
    (digit_not_space c hdig) (digit_not_space d hdd)

theorem pyInt_natDigits (n : Nat) : pyInt (natDigits n) = .ok (n : Int) := by
  obtain ⟨c, cs, hc, hdig⟩ := natDigitsRec_shape n []
  have hcons : natDigits n = c :: cs := hc
  have h48 : 48 ≤ c.toNat ∧ c.toNat ≤ 57 := by
    simpa [isDigitChar, Bool.and_eq_true, decide_eq_true_eq] using hdig
  have step : pyInt (natDigits n) =
      (if c = '-' then
        if cs ≠ [] ∧ allDigits cs = true then Except.ok (-(digitsVal cs : Int))
        else Except.error PyExc.valueError
      else if c = '+' then
        if cs ≠ [] ∧ allDigits cs = true then Except.ok ((digitsVal cs : Int))
        else Except.error PyExc.valueError
      else if allDigits (c :: cs) = true then Except.ok ((digitsVal (c :: cs) : Int))
      else Except.error PyExc.valueError) := by
    unfold pyInt
    rw [pyStrip_natDigits n, hcons]
  rw [step, if_neg (ne_of_toNat_ne (show c.toNat ≠ 45 from by omega)),
    if_neg (ne_of_toNat_ne (show c.toNat ≠ 43 from by omega)),
    if_pos (allDigits_of_forall _ (hcons ▸ natDigits_digits n)),
    ← hcons, digitsVal_natDigits n]

theorem readHeaders_succ (fuel : Nat) (s : List Char) (hs : List (List Char × List Char)) :
    readHeaders (fuel + 1) s hs =
      (if (pyStrip (readLine s).1).isEmpty then (hs, (readLine s).2)
      else
        match splitColonSpace (pyStrip (readLine s).1) with
        | some kv => readHeaders fuel (readLine s).2 (hs ++ [kv])
        | none => readHeaders fuel (readLine s).2 hs) := rfl

theorem readHeaders_frame (msg : List Char) (f : Nat)
    (hs : List (List Char × List Char)) :
    readHeaders (f + 2) (frameContent msg) hs =
      (hs ++ [("Content-Length".toList, natDigits msg.length)], msg) := by
  obtain ⟨u0, d0, hud0⟩ :=
    (List.eq_nil_or_concat (natDigits msg.length)).resolve_left (natDigits_ne_nil msg.length)
  rw [List.concat_eq_append] at hud0
  have hd0 : isDigitChar d0 = true := by
    refine natDigits_digits msg.length d0 ?_
    rw [hud0]
    exact List.mem_append.mpr (Or.inr (List.mem_singleton.mpr rfl))
  have hframe : frameContent msg =
      ("Content-Length: ".toList ++ natDigits msg.length ++ ['\r']) ++
        '\n' :: ('\r' :: '\n' :: msg) := by
    unfold frameContent
    simp [List.append_assoc]
  have hnl : '\n' ∉ "Content-Length: ".toList ++ natDigits msg.length ++ ['\r'] := by
    intro hmem
    rcases List.mem_append.mp hmem with h | h
    · rcases List.mem_append.mp h with h | h
      · exact absurd h (by decide)
      · exact absurd (natDigits_digits msg.length '\n' h) (by decide)
    · exact absurd h (by decide)
  have hRL : readLine (frameContent msg) =
      (("Content-Length: ".toList ++ natDigits msg.length ++ ['\r']) ++ ['\n'],
        '\r' :: '\n' :: msg) := by
    rw [hframe, readLine_append _ _ hnl]
  have hct : 'C' :: ("ontent-Length: ".toList ++ natDigits msg.length) =
      ("Content-Length: ".toList ++ u0) ++ [d0] := by
    rw [List.append_assoc, ← hud0]
    rfl
  have hstrip : pyStrip (("Content-Length: ".toList ++ natDigits msg.length ++ ['\r']) ++ ['\n']) =
      "Content-Length: ".toList ++ natDigits msg.length := by
    have hsh : ("Content-Length: ".toList ++ natDigits msg.length ++ ['\r']) ++ ['\n'] =
        ('C' :: ("ontent-Length: ".toList ++ natDigits msg.length)) ++ ['\r', '\n'] := by
      show ("Content-Length: ".toList ++ natDigits msg.length ++ ['\r']) ++ ['\n'] =
        ("Content-Length: ".toList ++ natDigits msg.length) ++ ['\r', '\n']
      simp [List.append_assoc]
    rw [hsh, pyStrip_crlf 'C' _ ("Content-Length: ".toList ++ u0) d0 hct (by decide)
      (digit_not_space d0 hd0)]
    rfl
  have hempty : ("Content-Length: ".toList ++ natDigits msg.length).isEmpty = false := rfl
  have iter1 : readHeaders (f + 2) (frameContent msg) hs =
      readHeaders (f + 1) ('\r' :: '\n' :: msg)
        (hs ++ [("Content-Length".toList, natDigits msg.length)]) := by
    rw [show f + 2 = (f + 1) + 1 from rfl, readHeaders_succ]
    simp only [hRL, hstrip, hempty, Bool.false_eq_true, if_false,
      splitColonSpace_contentLength]
  have iter2 : readHeaders (f + 1) ('\r' :: '\n' :: msg)
      (hs ++ [("Content-Length".toList, natDigits msg.length)]) =
      (hs ++ [("Content-Length".toList, natDigits msg.length)], msg) := by
    rw [readHeaders_succ]
    rfl
  rw [iter1, iter2]

theorem headerGet_single (k v : List Char) : headerGet [(k, v)] k = some v := by
  unfold headerGet
  simp [List.find?]

/-- C6: Framing round-trip.  For every JSON value, decoding the bytes that
the sender frames around its serialization yields the value back with the
stream fully consumed; and the length the header declares — the
character count len(msg) — equals the byte length of the UTF-8 encoding
of the payload, because json.dumps with ensure_ascii=True only emits
ASCII. -/
theorem framing_round_trip (j : Json) :
    read_response (frameContent (dumps j)) = Except.ok (some j, []) ∧
    utf8Len (dumps j) = (dumps j).length := by
  refine ⟨?_, utf8Len_eq_length _ (dumps_ascii j)⟩
  have hlen1 : 1 ≤ (frameContent (dumps j)).length := by
    simp [frameContent]
  obtain ⟨f, hf⟩ : ∃ f, (frameContent (dumps j)).length + 1 = f + 2 :=
    ⟨(frameContent (dumps j)).length - 1, by omega⟩
  obtain ⟨c, cs, hcs, _, _⟩ := dumps_shape j
  have hne : ((dumps j).length : Int) ≠ 0 := by
    rw [hcs]
    simp only [List.length_cons]
    omega
  unfold read_response
  rw [hf]
  simp only [readHeaders_frame, List.nil_append, headerGet_single, pyInt_natDigits]
  rw [if_pos hne]
  simp only [Int.toNat_natCast, List.take_length, loads_dumps, List.drop_length]

theorem pyInt_error (s : List Char) (e : PyExc) (h : pyInt s = .error e) :
    e = PyExc.valueError := by
  unfold pyInt at h
  split at h
  · injection h with h2
    exact h2.symm
  · split_ifs at h <;> (injection h with h2; exact h2.symm)

theorem loads_error (s : List Char) (e : PyExc) (h : loads s = .error e) :
    e = PyExc.valueError := by
  unfold loads at h
  split at h
  · cases h
  · injection h with h2
    exact h2.symm

theorem read_response_error (s : List Char) (e : PyExc)
    (h : read_response s = .error e) : e = PyExc.valueError := by
  unfold read_response at h
  cases hg : headerGet (readHeaders (s.length + 1) s []).1 ("Content-Length".toList) with
  | none =>
    rw [hg] at h
    cases h
  | some v =>
    cases hp : pyInt v with
    | error e2 =>
      simp only [hg, hp] at h
      injection h with h2
      exact h2 ▸ pyInt_error v e2 hp
    | ok n =>
      by_cases hn : n ≠ 0
      · cases hl : loads (((readHeaders (s.length + 1) s []).2).take n.toNat) with
        | ok j =>
          simp only [hg, hp, if_pos hn, hl] at h
          cases h
        | error e3 =>
          simp only [hg, hp, if_pos hn, hl] at h
          injection h with h2
          exact h2 ▸ loads_error _ e3 hl
      · simp only [hg, hp, if_neg hn] at h
        cases h

/-- C8 counterexample: a non-numeric Content-Length value makes decoding
fail with the builtin ValueError raised by int(), not a distinguished
FramingError; and a header block that lacks the Content-Length key makes
read_response return None silently rather than fail. -/
theorem framing_error_cex :
    read_response ("Content-Length: abc".toList ++ ['\r', '\n', '\r', '\n'] ++
        "\x7b\x7d".toList) = Except.error PyExc.valueError ∧
    read_response ("X-Foo: bar".toList ++ ['\r', '\n', '\r', '\n'] ++
        "\x7b\x7d".toList) = Except.ok (none, "\x7b\x7d".toList) :=
  ⟨rfl, rfl⟩

/-- C8 (amended): the code defines no distinguished protocol-violation
error: every failing decode carries Python's builtin ValueError (from
int() on the header value or json.loads on the body), and every
Content-Length value that strips to a string with a non-digit, non-sign
first character does raise that ValueError; a header block without a
Content-Length key yields None silently instead of an error. -/
theorem malformed_header_no_framing_error :
    (∀ (s : List Char) (e : PyExc), read_response s = Except.error e →
        e = PyExc.valueError) ∧
    (∀ (c : Char) (rest : List Char), isDigitChar c = false → c ≠ '-' → c ≠ '+' →
        pyStrip (c :: rest) = c :: rest →
        pyInt (c :: rest) = Except.error PyExc.valueError) := by
  refine ⟨read_response_error, ?_⟩
  intro c rest hdig hminus hplus hstrip
  have hall : allDigits (c :: rest) = false := by
    rw [show allDigits (c :: rest) = (isDigitChar c && allDigits rest) from rfl, hdig,
      Bool.false_and]
  have step : pyInt (c :: rest) =
      (if c = '-' then
        if rest ≠ [] ∧ allDigits rest = true then Except.ok (-(digitsVal rest : Int))
        else Except.error PyExc.valueError
      else if c = '+' then
        if rest ≠ [] ∧ allDigits rest = true then Except.ok ((digitsVal rest : Int))
        else Except.error PyExc.valueError
      else if allDigits (c :: rest) = true then Except.ok ((digitsVal (c :: rest) : Int))
      else Except.error PyExc.valueError) := by
    unfold pyInt
    rw [hstrip]
  rw [step, if_neg hminus, if_neg hplus, if_neg (by rw [hall]; exact fun hh => nomatch hh)]

/-- Witness for C8's amended theorem at concrete inputs. -/
theorem malformed_header_no_framing_error_witness :
    PyExc.valueError = PyExc.valueError ∧
    pyInt ("abc".toList) = Except.error PyExc.valueError :=
  ⟨malformed_header_no_framing_error.1
      ("Content-Length: abc".toList ++ ['\r', '\n', '\r', '\n'] ++ "\x7b\x7d".toList)
      PyExc.valueError rfl,
    malformed_header_no_framing_error.2 'a' "bc".toList rfl (by decide) (by decide) rfl⟩

end ClangdLint
